import Mathlib

/-!
Verification of the `sdss/dewarp` geometric-distortion engine
(`python/dewarp/utils/opticsmath.py`, `python/dewarp/utils/imgutils.py`,
`python/dewarp/core/dewarp.py`).

The Python code is shallowly embedded:

* Python `float` values are modelled exactly.  Scalars are elements of
  `RT3`, the ring of numbers `a + b*sqrt 3` with `a b` exact fractions;
  the square root of 3 appears in the source (`math.sqrt(1+2/(n-1))`
  with `n = 2` inside `get_orthophi_xypolycoefs`), and every other
  number produced on the analysed executions is rational.  Fractions
  (`Frac`) are unnormalised pairs `num/den`; every constructor and
  every arithmetic operation below keeps `den` positive, so the sign
  tests `0 < num`, `num = 0` and the cross-multiplied comparison used
  by `Frac.blt` decide exact value order.  Exact (rather than IEEE-754)
  arithmetic is the modelling choice for `float`; every branch decision
  exercised by the concrete evaluation theorems below has a margin that
  a correct floating computation preserves.
* fallible Python code returns `Except PyErr`; raising an exception is
  `Except.error`.
* numpy 2-d arrays of coefficients are rectangular `List (List RT3)`
  (`List (List Frac)` where only rationals occur); numpy's elementwise
  arithmetic is modelled index-wise.
* recursion uses structural fuel so that all definitions compute by
  kernel reduction; top-level wrappers supply fuel strictly larger than
  the recursion measure, and the inductive proofs are carried out for
  every sufficient fuel value.
-/

/-- Python exception classes that the modelled code can raise. -/
inductive PyErr where
  | nameError
  | attributeError
  | typeError
  | valueError
  | indexError
  | zeroDivisionError
  deriving DecidableEq, Repr

/-- Exact fraction `num/den`.  All operations below keep `den` positive,
so value comparison is cross multiplication and value zero is `num = 0`. -/
structure Frac where
  num : Int
  den : Int
  deriving DecidableEq, Repr

namespace Frac

def ofInt (n : Int) : Frac := ⟨n, 1⟩

instance instFracZero : Zero Frac := ⟨⟨0, 1⟩⟩
instance instFracOne : One Frac := ⟨⟨1, 1⟩⟩
instance instFracOfNat : OfNat Frac n := ⟨⟨(n : Int), 1⟩⟩

def add (x y : Frac) : Frac := ⟨x.num * y.den + y.num * x.den, x.den * y.den⟩
def mul (x y : Frac) : Frac := ⟨x.num * y.num, x.den * y.den⟩
def neg (x : Frac) : Frac := ⟨-x.num, x.den⟩
def sub (x y : Frac) : Frac := add x (neg y)

/-- Multiplicative inverse; keeps the denominator positive.  On value
zero it returns junk `0`; each Python division is modelled together
with the explicit zero test that decides `ZeroDivisionError`, so the
junk value is never observed. -/
def inv (x : Frac) : Frac :=
  if 0 < x.num then ⟨x.den, x.num⟩
  else if x.num < 0 then ⟨-x.den, -x.num⟩
  else ⟨0, 1⟩

def div (x y : Frac) : Frac := mul x (inv y)

instance instFracAdd : Add Frac := ⟨add⟩
instance instFracMul : Mul Frac := ⟨mul⟩
instance instFracNeg : Neg Frac := ⟨neg⟩
instance instFracSub : Sub Frac := ⟨sub⟩
instance instFracDiv : Div Frac := ⟨div⟩

/-- Value test `x = 0` (dens are positive by construction). -/
def isZero (x : Frac) : Bool := x.num == 0

/-- Value order `x < y` (dens are positive by construction). -/
def blt (x y : Frac) : Bool := decide (x.num * y.den < y.num * x.den)

end Frac

/-- The ring `{a + b*sqrt 3}` with exact fraction coordinates: the value
domain of the modelled floating-point program. -/
structure RT3 where
  a : Frac
  b : Frac
  deriving DecidableEq, Repr

namespace RT3

def ofFrac (x : Frac) : RT3 := ⟨x, 0⟩
def ofInt (n : Int) : RT3 := ⟨Frac.ofInt n, 0⟩
def ofNatR (n : Nat) : RT3 := ⟨⟨(n : Int), 1⟩, 0⟩

instance instRT3Zero : Zero RT3 := ⟨⟨0, 0⟩⟩
instance instRT3One : One RT3 := ⟨⟨1, 0⟩⟩
instance instRT3OfNat : OfNat RT3 n := ⟨⟨⟨(n : Int), 1⟩, 0⟩⟩

def add (x y : RT3) : RT3 := ⟨x.a + y.a, x.b + y.b⟩
def mul (x y : RT3) : RT3 :=
  ⟨x.a * y.a + (3 : Frac) * (x.b * y.b), x.a * y.b + x.b * y.a⟩
def neg (x : RT3) : RT3 := ⟨-x.a, -x.b⟩
def sub (x y : RT3) : RT3 := add x (neg y)

/-- `(a + b√3)⁻¹ = (a - b√3)/(a² - 3b²)`; junk `0` on value zero, which
is never observed (inversions are guarded by the modelled zero tests or
by nonzero pivot selection). -/
def inv (x : RT3) : RT3 :=
  let d : Frac := x.a * x.a - (3 : Frac) * (x.b * x.b)
  if d.isZero then 0 else ⟨x.a * d.inv, (-x.b) * d.inv⟩

def div (x y : RT3) : RT3 := mul x (inv y)

instance instRT3Add : Add RT3 := ⟨add⟩
instance instRT3Mul : Mul RT3 := ⟨mul⟩
instance instRT3Neg : Neg RT3 := ⟨neg⟩
instance instRT3Sub : Sub RT3 := ⟨sub⟩
instance instRT3Div : Div RT3 := ⟨div⟩

/-- Value test `0 < a + b√3`, decided exactly by rational sign tests. -/
def isPos (x : RT3) : Bool :=
  if x.b.isZero then Frac.blt 0 x.a
  else if x.a.isZero then Frac.blt 0 x.b
  else if Frac.blt 0 x.a then
    (if Frac.blt 0 x.b then true
     else Frac.blt ((3 : Frac) * (x.b * x.b)) (x.a * x.a))
  else
    (if Frac.blt 0 x.b then Frac.blt (x.a * x.a) ((3 : Frac) * (x.b * x.b))
     else false)

/-- Value order `x < y`. -/
def blt (x y : RT3) : Bool := isPos (sub y x)

/-- `numpy.absolute` on one value. -/
def absv (x : RT3) : RT3 := if blt x 0 then neg x else x

/-- binary maximum, the reduction step of `numpy.max`. -/
def maxv (x y : RT3) : RT3 := if blt x y then y else x

/-- Value test `x = 0`. -/
def isZeroR (x : RT3) : Bool := x.a.isZero && x.b.isZero

end RT3

/-! ### Rectangular coefficient grids

A numpy 2-d float array is a rectangular `List (List RT3)`; entry
`(i, j)` is the coefficient of `x^i * y^j`
(`opticsmath.py` docstrings: increasing row index = increasing powers
of `x`, increasing column index = increasing powers of `y`). -/

/-- Grid of coefficients of a bivariate polynomial (numpy 2-d array). -/
abbrev Grid := List (List RT3)

/-- build an `r × c` array from an entry function. -/
def buildG {α : Type} (r c : Nat) (f : Nat → Nat → α) : List (List α) :=
  (List.range r).map (fun i => (List.range c).map (f i))

/-- entry read `g[i][j]` with default `0` out of range. -/
def getE {α : Type} [Zero α] (g : List (List α)) (i j : Nat) : α :=
  (g.getD i []).getD j 0

/-- number of rows, `shape[0]`. -/
def grows {α : Type} (g : List (List α)) : Nat := g.length

/-- number of columns, `shape[1]` of a rectangular array. -/
def gcols {α : Type} (g : List (List α)) : Nat := (g.headD []).length

/-- `g` is a rectangular `r × c` array. -/
def IsRect {α : Type} (g : List (List α)) (r c : Nat) : Prop :=
  g.length = r ∧ ∀ row ∈ g, row.length = c

theorem buildG_length {α : Type} (r c : Nat) (f : Nat → Nat → α) :
    (buildG r c f).length = r := by
  simp [buildG]

theorem buildG_isRect {α : Type} (r c : Nat) (f : Nat → Nat → α) :
    IsRect (buildG r c f) r c := by
  refine ⟨buildG_length r c f, ?_⟩
  intro row hrow
  simp only [buildG, List.mem_map] at hrow
  obtain ⟨i, _, rfl⟩ := hrow
  simp

theorem getE_buildG {α : Type} [Zero α] {r c i j : Nat} (f : Nat → Nat → α)
    (hi : i < r) (hj : j < c) : getE (buildG r c f) i j = f i j := by
  unfold getE buildG
  have h1 : i < ((List.range r).map (fun i => (List.range c).map (f i))).length := by
    simpa using hi
  rw [List.getD_eq_getElem _ _ h1]
  simp only [List.getElem_map, List.getElem_range]
  have h2 : j < ((List.range c).map (f i)).length := by simpa using hj
  rw [List.getD_eq_getElem _ _ h2]
  simp

theorem buildG_congr {α : Type} {r c : Nat} {f g : Nat → Nat → α}
    (h : ∀ i < r, ∀ j < c, f i j = g i j) : buildG r c f = buildG r c g := by
  unfold buildG
  refine List.map_congr_left ?_
  intro i hi
  refine List.map_congr_left ?_
  intro j hj
  exact h i (List.mem_range.mp hi) j (List.mem_range.mp hj)

theorem gcols_of_isRect {α : Type} {g : List (List α)} {r c : Nat}
    (hg : IsRect g r c) (hr : 1 ≤ r) : gcols g = c := by
  obtain ⟨hlen, hrow⟩ := hg
  cases g with
  | nil => simp at hlen; omega
  | cons h t => exact hrow h (by simp)

/-! ### `polypder2d` (opticsmath.py lines 283-303)

`numpy.multiply(numpy.repeat(numpy.arange(1,rows),cols).reshape(rows-1,cols), poly[1:,:])`
is the array whose `(i,j)` entry is `(i+1) * poly[i+1][j]`, with one row
fewer; the `wrtY` branch is the analogue on columns. -/

/-- derivative of a bivariate coefficient grid with respect to `x`
(`wrtX_otherwise_wrtY = True`) or `y` (`False`). -/
def polypder2d (poly : Grid) (wrtX_otherwise_wrtY : Bool) : Grid :=
  match wrtX_otherwise_wrtY with
  | true =>
    buildG (grows poly - 1) (gcols poly)
      (fun i j => RT3.ofNatR (i + 1) * getE poly (i + 1) j)
  | false =>
    buildG (grows poly) (gcols poly - 1)
      (fun i j => RT3.ofNatR (j + 1) * getE poly i (j + 1))

theorem Frac.mk_mul (a b c d : Int) :
    (Frac.mk a b) * (Frac.mk c d) = Frac.mk (a * c) (b * d) := rfl

theorem int_mul_eq (a b : Int) : a.mul b = a * b := rfl

theorem int_add_eq (a b : Int) : a.add b = a + b := rfl

/-- scalar multiplications by natural casts commute in `RT3`. -/
theorem RT3.ofNatR_mul_left_comm (k l : Nat) (v : RT3) :
    RT3.ofNatR k * (RT3.ofNatR l * v) = RT3.ofNatR l * (RT3.ofNatR k * v) := by
  cases v with
  | mk va vb =>
    cases va with
    | mk van vad =>
      cases vb with
      | mk vbn vbd =>
        show RT3.mul _ (RT3.mul _ _) = RT3.mul _ (RT3.mul _ _)
        simp only [RT3.mul, RT3.ofNatR, HMul.hMul, HAdd.hAdd, Mul.mul, Add.add,
          Frac.instFracMul, Frac.instFracAdd, Frac.mul, Frac.add, OfNat.ofNat,
          Frac.instFracOfNat, RT3.mk.injEq, Frac.mk.injEq]
        simp only [int_mul_eq, int_add_eq]
        refine ⟨⟨?_, ?_⟩, ?_, ?_⟩ <;> ring

/-- Claim C9: `polypder2d(p, True)` has entry `(i,j)` equal to
`(i+1) * p[i+1][j]` and exactly one row fewer than `p`;
`polypder2d(p, False)` has entry `(i,j)` equal to `(j+1) * p[i][j+1]`
and exactly one column fewer than `p`. -/
theorem c9_polypder2d_entries (p : Grid) (r c : Nat)
    (hp : IsRect p r c) (hr : 1 ≤ r) (hc : 1 ≤ c) :
    ((polypder2d p true).length = r - 1 ∧
      ∀ i j, i < r - 1 → j < c →
        getE (polypder2d p true) i j = RT3.ofNatR (i + 1) * getE p (i + 1) j) ∧
    (IsRect (polypder2d p false) r (c - 1) ∧
      ∀ i j, i < r → j < c - 1 →
        getE (polypder2d p false) i j = RT3.ofNatR (j + 1) * getE p i (j + 1)) := by
  have hrows : grows p = r := hp.1
  have hcols : gcols p = c := gcols_of_isRect hp hr
  constructor
  · constructor
    · show (buildG (grows p - 1) (gcols p) _).length = r - 1
      rw [buildG_length, hrows]
    · intro i j hi hj
      show getE (buildG (grows p - 1) (gcols p) _) i j = _
      rw [getE_buildG _ (by omega) (by omega)]
  · constructor
    · show IsRect (buildG (grows p) (gcols p - 1) _) r (c - 1)
      rw [hrows.symm, hcols.symm]
      exact buildG_isRect _ _ _
    · intro i j hi hj
      show getE (buildG (grows p) (gcols p - 1) _) i j = _
      rw [getE_buildG _ (by omega) (by omega)]

/-- Claim C9 witness: concrete instance of the statement on the grid
`[[1, 2], [3, 4]]`. -/
theorem c9_polypder2d_entries_witness :
    (((polypder2d [[(1 : RT3), 2], [3, 4]] true).length = 2 - 1 ∧
      ∀ i j, i < 2 - 1 → j < 2 →
        getE (polypder2d [[(1 : RT3), 2], [3, 4]] true) i j =
          RT3.ofNatR (i + 1) * getE [[(1 : RT3), 2], [3, 4]] (i + 1) j) ∧
    (IsRect (polypder2d [[(1 : RT3), 2], [3, 4]] false) 2 (2 - 1) ∧
      ∀ i j, i < 2 → j < 2 - 1 →
        getE (polypder2d [[(1 : RT3), 2], [3, 4]] false) i j =
          RT3.ofNatR (j + 1) * getE [[(1 : RT3), 2], [3, 4]] i (j + 1))) :=
  c9_polypder2d_entries [[(1 : RT3), 2], [3, 4]] 2 2
    (by constructor <;> simp +decide) (by decide) (by decide)

/-- Claim C10: mixed partial differentiation commutes: for a rectangular
grid with at least two rows and two columns,
`polypder2d(polypder2d(p, True), False) = polypder2d(polypder2d(p, False), True)`. -/
theorem c10_mixed_partials_commute (p : Grid) (r c : Nat)
    (hp : IsRect p r c) (hr : 2 ≤ r) (hc : 2 ≤ c) :
    polypder2d (polypder2d p true) false = polypder2d (polypder2d p false) true := by
  have hrows : grows p = r := hp.1
  have hcols : gcols p = c := gcols_of_isRect hp (by omega)
  have hx : polypder2d p true =
      buildG (r - 1) c (fun i j => RT3.ofNatR (i + 1) * getE p (i + 1) j) := by
    show buildG (grows p - 1) (gcols p) _ = _
    rw [hrows, hcols]
  have hy : polypder2d p false =
      buildG r (c - 1) (fun i j => RT3.ofNatR (j + 1) * getE p i (j + 1)) := by
    show buildG (grows p) (gcols p - 1) _ = _
    rw [hrows, hcols]
  rw [hx, hy]
  have hgx : gcols (buildG (r - 1) c
      (fun i j => RT3.ofNatR (i + 1) * getE p (i + 1) j)) = c :=
    gcols_of_isRect (buildG_isRect _ _ _) (by omega)
  have hgy : gcols (buildG r (c - 1)
      (fun i j => RT3.ofNatR (j + 1) * getE p i (j + 1))) = c - 1 :=
    gcols_of_isRect (buildG_isRect _ _ _) (by omega)
  show buildG (grows _) (gcols _ - 1) _ = buildG (grows _ - 1) (gcols _) _
  rw [hgx, hgy]
  unfold grows
  rw [buildG_length, buildG_length]
  refine buildG_congr ?_
  intro i hi j hj
  rw [getE_buildG _ (by omega) (by omega), getE_buildG _ (by omega) (by omega)]
  exact RT3.ofNatR_mul_left_comm (j + 1) (i + 1) (getE p (i + 1) (j + 1))

/-- Claim C10 witness: concrete instance on the grid `[[1,2],[3,4]]`. -/
theorem c10_mixed_partials_commute_witness :
    polypder2d (polypder2d [[(1 : RT3), 2], [3, 4]] true) false =
      polypder2d (polypder2d [[(1 : RT3), 2], [3, 4]] false) true :=
  c10_mixed_partials_commute [[(1 : RT3), 2], [3, 4]] 2 2
    (by constructor <;> simp +decide) (by decide) (by decide)

/-! ### `warpcoefs.get_zernike_xypolycoefs` (opticsmath.py lines 29-76)

All Zernike coefficient grids are rational, so this recursion works on
`Frac` grids.  Python's class-level initial cache (line 25) supplies the
base cases; memoisation of later entries is value-transparent (stored
values equal recomputed ones), so the value semantics is the plain
recursion below.  The cache *state* itself is modelled separately for
the cache-scoping claim.  Each Python float division is modelled
together with the zero test of its divisor, which decides
`ZeroDivisionError`; the source divides sequentially by `(n+m)`,
`(n-m)`, `(n-2)` on lines 63-66, so the raise happens exactly when one
of the three divisors vanishes. -/

/-- Grids of rational coefficients (the Zernike recursion never leaves `ℚ`). -/
abbrev FGrid := List (List Frac)

/-- `numpy.zeros((r, c))`. -/
def zerosF (r c : Nat) : FGrid := buildG r c (fun _ _ => 0)

/-- scalar times grid, `q * arr`. -/
def scaleF (q : Frac) (g : FGrid) : FGrid := g.map (fun row => row.map (fun v => q * v))

/-- `out[r0:r0+s.rows, c0:c0+s.cols] += s` on a rectangular `out` whose
shape is, by construction at every use below, large enough for the
slice. -/
def addRegion {α : Type} [Zero α] [Add α] (g : List (List α)) (r0 c0 : Nat)
    (s : List (List α)) : List (List α) :=
  buildG (grows g) (gcols g) (fun i j =>
    getE g i j + (if r0 ≤ i ∧ c0 ≤ j then getE s (i - r0) (j - c0) else 0))

/-- `out[r0:r0+s.rows, c0:c0+s.cols] -= s`. -/
def subRegion {α : Type} [Zero α] [Sub α] (g : List (List α)) (r0 c0 : Nat)
    (s : List (List α)) : List (List α) :=
  buildG (grows g) (gcols g) (fun i j =>
    getE g i j - (if r0 ≤ i ∧ c0 ≤ j then getE s (i - r0) (j - c0) else 0))

/-- the class-level initial cache, opticsmath.py line 25. -/
def zlookup (n m : Int) : Option FGrid :=
  if n = 0 ∧ m = 0 then some [[1]]
  else if n = 1 ∧ m = -1 then some [[0, 1], [0, 0]]
  else if n = 1 ∧ m = 1 then some [[0, 0], [1, 0]]
  else if n = 2 ∧ m = 2 then some [[0, 0, -1], [0, 0, 0], [1, 0, 0]]
  else if n = 2 ∧ m = -2 then some [[0, 0, 0], [0, 2, 0], [0, 0, 0]]
  else if n = 2 ∧ m = 0 then some [[-1, 0, 2], [0, 0, 0], [2, 0, 0]]
  else none

/-- opticsmath.py lines 62-66: the general three-term recurrence body;
`lastlast` and `last` are the already computed `(n-4, m)` and
`(n-2, m)` grids and the three divisors are nonzero (checked by the
caller, mirroring Python's raise). -/
def zassemble2 (n m : Int) (lastlast last : FGrid) : FGrid :=
  let c1 : Frac := Frac.ofInt (4 * n * (n - 1) * (n - 2)) /
    Frac.ofInt (n + m) / Frac.ofInt (n - m) / Frac.ofInt (n - 2)
  let c2 : Frac := Frac.ofInt (2 * (n - 1) * (m ^ 2 + n * (n - 2))) /
    Frac.ofInt (n + m) / Frac.ofInt (n - m) / Frac.ofInt (n - 2)
  let c3 : Frac := Frac.ofInt (n * (n + m - 2) * (n - m - 2)) /
    Frac.ofInt (n + m) / Frac.ofInt (n - m) / Frac.ofInt (n - 2)
  let out0 := zerosF (max (grows lastlast) (grows last + 2))
    (max (gcols lastlast) (gcols last + 2))
  let out1 := addRegion out0 2 0 (scaleF c1 last)
  let out2 := addRegion out1 0 2 (scaleF c1 last)
  let out3 := subRegion out2 0 0 (scaleF c2 last)
  subRegion out3 0 0 (scaleF c3 lastlast)

/-- opticsmath.py lines 71-74: the edge (`n = |m|`) recurrence body. -/
def zassembleE (lastlast last : FGrid) : FGrid :=
  let out0 := zerosF (max (grows lastlast + 2) (grows last + 1))
    (max (gcols lastlast + 2) (gcols last))
  let out1 := subRegion out0 0 2 lastlast
  let out2 := subRegion out1 2 0 lastlast
  addRegion out2 1 0 (scaleF (Frac.ofInt 2) last)

/-- one unfolding of the `get_zernike_xypolycoefs` recursion, with the
recursive occurrences abstracted as `rec`. -/
def zstep (rec : Int → Int → Except PyErr FGrid) (n m : Int) : Except PyErr FGrid :=
  if n < (m.natAbs : Int) then .ok (zerosF 1 1)
  else match zlookup n m with
  | some g => .ok g
  | none =>
    if (m.natAbs : Int) < n then
      match rec (n - 4) m, rec (n - 2) m with
      | .error e, _ => .error e
      | .ok _, .error e => .error e
      | .ok lastlast, .ok last =>
        if n + m = 0 ∨ n - m = 0 ∨ n - 2 = 0 then .error .zeroDivisionError
        else .ok (zassemble2 n m lastlast last)
    else
      if m = 0 then .error .zeroDivisionError
      else
        match rec (n - 2) (m - 2 * (m / (m.natAbs : Int))),
            rec (n - 1) (m - m / (m.natAbs : Int)) with
        | .error e, _ => .error e
        | .ok _, .error e => .error e
        | .ok lastlast, .ok last => .ok (zassembleE lastlast last)

/-- the recursion of `get_zernike_xypolycoefs`, on structural fuel.  The
fuel-out value is never reached when the fuel exceeds the recursion
measure `(n+2).toNat`; all theorems below quantify over sufficient fuel
or instantiate the sufficient wrapper. -/
def getZernikeF : Nat → Int → Int → Except PyErr FGrid
  | 0, _, _ => .ok []
  | fuel + 1, n, m => zstep (getZernikeF fuel) n m

/-- `get_zernike_xypolycoefs(n, m)` evaluated from the pristine class
state, with fuel strictly above the recursion measure. -/
def get_zernike_xypolycoefs (n m : Int) : Except PyErr FGrid :=
  getZernikeF ((n + 2).toNat + 1) n m

/-- a radial index pair the docstring declares safe: `n ≥ 0`, `|m| ≤ n`,
`n` and `m` of equal parity. -/
abbrev validIdx (n m : Int) : Prop :=
  0 ≤ n ∧ (m.natAbs : Int) ≤ n ∧ n % 2 = m % 2

/-- the invalid pairs on which the recursion divides by `n - 2 = 0`
(directly or through a recursive call): `m = ±1` with even `n ≥ 2`. -/
abbrev zdivErr (n m : Int) : Prop :=
  (m = 1 ∨ m = -1) ∧ 2 ≤ n ∧ n % 2 = 0

/-- every entry of the grid has value zero. -/
def gridZeroF (g : FGrid) : Prop := ∀ row ∈ g, ∀ v ∈ row, v.num = 0

theorem zlookup_valid {n m : Int} {g : FGrid} (h : zlookup n m = some g) :
    validIdx n m := by
  unfold zlookup at h
  split at h
  · next hc => obtain ⟨rfl, rfl⟩ := hc; decide
  · split at h
    · next hc => obtain ⟨rfl, rfl⟩ := hc; decide
    · split at h
      · next hc => obtain ⟨rfl, rfl⟩ := hc; decide
      · split at h
        · next hc => obtain ⟨rfl, rfl⟩ := hc; decide
        · split at h
          · next hc => obtain ⟨rfl, rfl⟩ := hc; decide
          · split at h
            · next hc => obtain ⟨rfl, rfl⟩ := hc; decide
            · exact absurd h (by simp)

theorem fracZ_zero : (0 : Frac).num = 0 := rfl

theorem fracZ_add {x y : Frac} (hx : x.num = 0) (hy : y.num = 0) :
    (x + y).num = 0 := by
  show (Frac.add x y).num = 0
  simp [Frac.add, hx, hy]

theorem fracZ_sub {x y : Frac} (hx : x.num = 0) (hy : y.num = 0) :
    (x - y).num = 0 := by
  show (Frac.sub x y).num = 0
  simp [Frac.sub, Frac.add, Frac.neg, hx, hy]

theorem fracZ_scale {x : Frac} (q : Frac) (hx : x.num = 0) : (q * x).num = 0 := by
  show (Frac.mul q x).num = 0
  simp [Frac.mul, hx]

theorem getE_zero_of_gridZeroF {g : FGrid} (h : gridZeroF g) (i j : Nat) :
    (getE g i j).num = 0 := by
  unfold getE
  by_cases hi : i < g.length
  · rw [List.getD_eq_getElem _ _ hi]
    by_cases hj : j < (g[i]).length
    · rw [List.getD_eq_getElem _ _ hj]
      exact h _ (List.getElem_mem hi) _ (List.getElem_mem hj)
    · rw [List.getD_eq_default _ _ (by omega)]; rfl
  · have h1 : g.getD i [] = [] := List.getD_eq_default _ _ (by omega)
    rw [h1, List.getD_nil]; rfl

theorem gridZeroF_buildG {r c : Nat} {f : Nat → Nat → Frac}
    (h : ∀ i j, (f i j).num = 0) : gridZeroF (buildG r c f) := by
  intro row hrow v hv
  simp only [buildG, List.mem_map] at hrow
  obtain ⟨i, _, rfl⟩ := hrow
  simp only [List.mem_map] at hv
  obtain ⟨j, _, rfl⟩ := hv
  exact h i j

theorem gridZeroF_zerosF (r c : Nat) : gridZeroF (zerosF r c) :=
  gridZeroF_buildG (fun _ _ => rfl)

theorem gridZeroF_scaleF {g : FGrid} (q : Frac) (h : gridZeroF g) :
    gridZeroF (scaleF q g) := by
  intro row hrow v hv
  simp only [scaleF, List.mem_map] at hrow
  obtain ⟨row0, hrow0, rfl⟩ := hrow
  simp only [List.mem_map] at hv
  obtain ⟨v0, hv0, rfl⟩ := hv
  exact fracZ_scale q (h row0 hrow0 v0 hv0)

theorem gridZeroF_addRegion {g s : FGrid} (r0 c0 : Nat)
    (hg : gridZeroF g) (hs : gridZeroF s) : gridZeroF (addRegion g r0 c0 s) := by
  refine gridZeroF_buildG (fun i j => ?_)
  refine fracZ_add (getE_zero_of_gridZeroF hg i j) ?_
  split
  · exact getE_zero_of_gridZeroF hs _ _
  · rfl

theorem gridZeroF_subRegion {g s : FGrid} (r0 c0 : Nat)
    (hg : gridZeroF g) (hs : gridZeroF s) : gridZeroF (subRegion g r0 c0 s) := by
  refine gridZeroF_buildG (fun i j => ?_)
  refine fracZ_sub (getE_zero_of_gridZeroF hg i j) ?_
  split
  · exact getE_zero_of_gridZeroF hs _ _
  · rfl

theorem gridZeroF_zassemble2 {lastlast last : FGrid} (n m : Int)
    (hll : gridZeroF lastlast) (hl : gridZeroF last) :
    gridZeroF (zassemble2 n m lastlast last) := by
  unfold zassemble2
  exact gridZeroF_subRegion _ _
    (gridZeroF_subRegion _ _
      (gridZeroF_addRegion _ _
        (gridZeroF_addRegion _ _ (gridZeroF_zerosF _ _) (gridZeroF_scaleF _ hl))
        (gridZeroF_scaleF _ hl))
      (gridZeroF_scaleF _ hl))
    (gridZeroF_scaleF _ hll)


/-! evaluation lemmas for one step of the recursion -/

theorem zstep_zeros (rec : Int → Int → Except PyErr FGrid) {n m : Int}
    (h : n < (m.natAbs : Int)) : zstep rec n m = .ok (zerosF 1 1) := by
  unfold zstep
  rw [if_pos h]

theorem zstep_cache (rec : Int → Int → Except PyErr FGrid) {n m : Int} {g : FGrid}
    (h1 : ¬ n < (m.natAbs : Int)) (h : zlookup n m = some g) :
    zstep rec n m = .ok g := by
  unfold zstep
  rw [if_neg h1, h]

theorem zstep_gen_err1 (rec : Int → Int → Except PyErr FGrid) {n m : Int} {e : PyErr}
    (h1 : ¬ n < (m.natAbs : Int)) (h2 : zlookup n m = none)
    (h3 : (m.natAbs : Int) < n) (hll : rec (n - 4) m = .error e) :
    zstep rec n m = .error e := by
  unfold zstep
  rw [if_neg h1, h2]
  simp only [hll]
  rw [if_pos h3]

theorem zstep_gen_err2 (rec : Int → Int → Except PyErr FGrid) {n m : Int} {e : PyErr}
    {gll : FGrid} (h1 : ¬ n < (m.natAbs : Int)) (h2 : zlookup n m = none)
    (h3 : (m.natAbs : Int) < n) (hll : rec (n - 4) m = .ok gll)
    (hl : rec (n - 2) m = .error e) : zstep rec n m = .error e := by
  unfold zstep
  rw [if_neg h1, h2]
  simp only [hll, hl]
  rw [if_pos h3]

theorem zstep_gen_div (rec : Int → Int → Except PyErr FGrid) {n m : Int}
    {gll gl : FGrid} (h1 : ¬ n < (m.natAbs : Int)) (h2 : zlookup n m = none)
    (h3 : (m.natAbs : Int) < n) (hll : rec (n - 4) m = .ok gll)
    (hl : rec (n - 2) m = .ok gl) (hdiv : n + m = 0 ∨ n - m = 0 ∨ n - 2 = 0) :
    zstep rec n m = .error .zeroDivisionError := by
  unfold zstep
  rw [if_neg h1, h2]
  simp only [hll, hl]
  rw [if_pos h3, if_pos hdiv]

theorem zstep_gen_ok (rec : Int → Int → Except PyErr FGrid) {n m : Int}
    {gll gl : FGrid} (h1 : ¬ n < (m.natAbs : Int)) (h2 : zlookup n m = none)
    (h3 : (m.natAbs : Int) < n) (hll : rec (n - 4) m = .ok gll)
    (hl : rec (n - 2) m = .ok gl) (hdiv : ¬ (n + m = 0 ∨ n - m = 0 ∨ n - 2 = 0)) :
    zstep rec n m = .ok (zassemble2 n m gll gl) := by
  unfold zstep
  rw [if_neg h1, h2]
  simp only [hll, hl]
  rw [if_pos h3, if_neg hdiv]

theorem zstep_edge_ok (rec : Int → Int → Except PyErr FGrid) {n m : Int}
    {gll gl : FGrid} (h1 : ¬ n < (m.natAbs : Int)) (h2 : zlookup n m = none)
    (h3 : ¬ (m.natAbs : Int) < n) (h4 : ¬ m = 0)
    (hll : rec (n - 2) (m - 2 * (m / (m.natAbs : Int))) = .ok gll)
    (hl : rec (n - 1) (m - m / (m.natAbs : Int)) = .ok gl) :
    zstep rec n m = .ok (zassembleE gll gl) := by
  unfold zstep
  rw [if_neg h1, h2]
  rw [if_neg h3, if_neg h4]
  simp only [hll, hl]

/-! arithmetic side conditions, each proved in a minimal context so that
`omega` stays cheap -/

theorem zdivErr_not_of_abs {n m : Int} (habs : n < (m.natAbs : Int)) :
    ¬ zdivErr n m := by
  rintro ⟨hm, hn2, -⟩
  rcases hm with rfl | rfl <;> simp at habs <;> omega

theorem zdivErr_not_sub4_of_two {n m : Int} (h : n = 2) : ¬ zdivErr (n - 4) m := by
  rintro ⟨-, h2, -⟩
  omega

theorem zdivErr_not_sub2_of_two {n m : Int} (h : n = 2) : ¬ zdivErr (n - 2) m := by
  rintro ⟨-, h2, -⟩
  omega

theorem zdivErr_not_sub4_of_four {n m : Int} (h : n = 4) : ¬ zdivErr (n - 4) m := by
  rintro ⟨-, h2, -⟩
  omega

theorem zdivErr_sub2 {n m : Int} (hm1 : m = 1 ∨ m = -1) (h4 : 4 ≤ n)
    (hev : n % 2 = 0) : zdivErr (n - 2) m :=
  ⟨hm1, by omega, by omega⟩

theorem zdivErr_sub4 {n m : Int} (hm1 : m = 1 ∨ m = -1) (h6 : 6 ≤ n)
    (hev : n % 2 = 0) : zdivErr (n - 4) m :=
  ⟨hm1, by omega, by omega⟩

theorem zdivErr_of_sub4 {n m : Int} (h : zdivErr (n - 4) m) : zdivErr n m :=
  ⟨h.1, by have := h.2.1; omega, by have := h.2.2; omega⟩

theorem zdivErr_of_sub2 {n m : Int} (h : zdivErr (n - 2) m) : zdivErr n m :=
  ⟨h.1, by have := h.2.1; omega, by have := h.2.2; omega⟩

theorem not_valid_sub4 {n m : Int} (hpar : n % 2 ≠ m % 2) : ¬ validIdx (n - 4) m := by
  rintro ⟨-, -, hp⟩
  exact hpar (by omega)

theorem not_valid_sub2 {n m : Int} (hpar : n % 2 ≠ m % 2) : ¬ validIdx (n - 2) m := by
  rintro ⟨-, -, hp⟩
  exact hpar (by omega)

theorem parity_of_invalid_mid {n m : Int}
    (hinv : ¬ validIdx n m) (hlt : (m.natAbs : Int) < n) : n % 2 ≠ m % 2 := by
  intro hp
  exact hinv ⟨by omega, by omega, hp⟩

theorem valid_of_eq_abs {n m : Int} (habs : ¬ n < (m.natAbs : Int))
    (hlt : ¬ (m.natAbs : Int) < n) : validIdx n m := by
  refine ⟨by omega, by omega, ?_⟩
  rcases Int.natAbs_eq m with h | h <;> omega

theorem no_div_zero_mid {n m : Int} (hlt : (m.natAbs : Int) < n)
    (hpar : n % 2 ≠ m % 2) (hzd : ¬ zdivErr n m) :
    ¬ (n + m = 0 ∨ n - m = 0 ∨ n - 2 = 0) := by
  rintro (h | h | h)
  · omega
  · omega
  · exact hzd ⟨by omega, by omega, by omega⟩

theorem fuel_sub4 {n m : Int} {f : Nat} (hf : (n + 2).toNat < f + 1)
    (hlt : (m.natAbs : Int) < n) : ((n - 4) + 2).toNat < f := by
  omega

theorem fuel_sub2 {n m : Int} {f : Nat} (hf : (n + 2).toNat < f + 1)
    (hlt : (m.natAbs : Int) < n) : ((n - 2) + 2).toNat < f := by
  omega

/-- core induction for claim C3: on every invalid index pair the
recursion either returns an all-zero grid, or raises
`ZeroDivisionError` exactly when `m = ±1` with even `n ≥ 2` (the
recursion then reaches the `(2, ±1)` step whose scale factors divide by
`n - 2 = 0`, opticsmath.py line 63). -/
theorem zernikeF_invalid : ∀ fuel : Nat, ∀ n m : Int,
    (n + 2).toNat < fuel → ¬ validIdx n m →
    (zdivErr n m → getZernikeF fuel n m = .error .zeroDivisionError) ∧
    (¬ zdivErr n m → ∃ g, getZernikeF fuel n m = .ok g ∧ gridZeroF g) := by
  intro fuel
  induction fuel with
  | zero => intro n m hf; omega
  | succ f ih =>
    intro n m hf hinv
    show (zdivErr n m → zstep (getZernikeF f) n m = .error .zeroDivisionError) ∧
      (¬ zdivErr n m → ∃ g, zstep (getZernikeF f) n m = .ok g ∧ gridZeroF g)
    by_cases habs : n < (m.natAbs : Int)
    · refine ⟨fun h => absurd h (zdivErr_not_of_abs habs), fun _ => ?_⟩
      exact ⟨zerosF 1 1, zstep_zeros _ habs, gridZeroF_zerosF 1 1⟩
    · rcases hlk : zlookup n m with - | g
      · by_cases hlt : (m.natAbs : Int) < n
        · have hpar := parity_of_invalid_mid hinv hlt
          have hf4 := fuel_sub4 hf hlt
          have hf2 := fuel_sub2 hf hlt
          have hinv4 := not_valid_sub4 (m := m) hpar
          have hinv2 := not_valid_sub2 (m := m) hpar
          by_cases hzd : zdivErr n m
          · refine ⟨fun _ => ?_, fun h => absurd hzd h⟩
            obtain ⟨hm1, hn2, hneven⟩ := hzd
            by_cases hn2eq : n = 2
            · obtain ⟨gll, hll, -⟩ :=
                (ih (n - 4) m hf4 hinv4).2 (zdivErr_not_sub4_of_two hn2eq)
              obtain ⟨gl, hl, -⟩ :=
                (ih (n - 2) m hf2 hinv2).2 (zdivErr_not_sub2_of_two hn2eq)
              exact zstep_gen_div _ habs hlk hlt hll hl (by right; right; omega)
            · by_cases hn4 : n = 4
              · obtain ⟨gll, hll, -⟩ :=
                  (ih (n - 4) m hf4 hinv4).2 (zdivErr_not_sub4_of_four hn4)
                have hl := (ih (n - 2) m hf2 hinv2).1
                  (zdivErr_sub2 hm1 (by omega) hneven)
                exact zstep_gen_err2 _ habs hlk hlt hll hl
              · have hll := (ih (n - 4) m hf4 hinv4).1
                  (zdivErr_sub4 hm1 (by omega) hneven)
                exact zstep_gen_err1 _ habs hlk hlt hll
          · refine ⟨fun h => absurd h hzd, fun _ => ?_⟩
            obtain ⟨gll, hll, hllz⟩ :=
              (ih (n - 4) m hf4 hinv4).2 (fun h => hzd (zdivErr_of_sub4 h))
            obtain ⟨gl, hl, hlz⟩ :=
              (ih (n - 2) m hf2 hinv2).2 (fun h => hzd (zdivErr_of_sub2 h))
            exact ⟨zassemble2 n m gll gl,
              zstep_gen_ok _ habs hlk hlt hll hl (no_div_zero_mid hlt hpar hzd),
              gridZeroF_zassemble2 n m hllz hlz⟩
        · exact absurd (valid_of_eq_abs habs hlt) hinv
      · exact absurd (zlookup_valid hlk) hinv

/-- Claim C3 counterexample: `(n, m) = (2, 1)` is invalid (`n` and `m`
differ in parity), yet `get_zernike_xypolycoefs(2, 1)` raises
`ZeroDivisionError` (the scale factors on opticsmath.py lines 63-66
divide by `n - 2 = 0`) instead of returning an all-zero grid. -/
theorem c3_invalid_zernike_counterexample :
    ¬ validIdx 2 1 ∧ get_zernike_xypolycoefs 2 1 = .error .zeroDivisionError :=
  ⟨by decide, rfl⟩

/-- Claim C3 (amended): an invalid index pair (`n < 0`, `|m| > n`, or
parity mismatch) yields an entirely zero coefficient grid without
failing, except for the parity-mismatched pairs with `m = ±1` and even
`n ≥ 2`, on which the recursion raises `ZeroDivisionError`. -/
theorem c3_invalid_zernike_amended (n m : Int) (hinv : ¬ validIdx n m) :
    (zdivErr n m → get_zernike_xypolycoefs n m = .error .zeroDivisionError) ∧
    (¬ zdivErr n m → ∃ g, get_zernike_xypolycoefs n m = .ok g ∧ gridZeroF g) :=
  zernikeF_invalid ((n + 2).toNat + 1) n m (by omega) hinv

/-- Claim C3 witness: the amended theorem applied at the invalid pair
`(3, 0)`, which returns an all-zero grid. -/
theorem c3_invalid_zernike_amended_witness :
    ∃ g, get_zernike_xypolycoefs 3 0 = .ok g ∧ gridZeroF g :=
  (c3_invalid_zernike_amended 3 0 (by decide)).2 (by decide)

/-! ### shapes of valid Zernike grids

For every docstring-valid pair `(n, m)` the recursion succeeds and
returns a square `(n+1) × (n+1)` grid; this feeds the basis-count
claim. -/

theorem isRect_zerosF (r c : Nat) : IsRect (zerosF r c) r c := buildG_isRect r c _

theorem isRect_scaleF {g : FGrid} {r c : Nat} (q : Frac) (h : IsRect g r c) :
    IsRect (scaleF q g) r c := by
  obtain ⟨hlen, hrow⟩ := h
  constructor
  · simpa [scaleF] using hlen
  · intro row hr
    simp only [scaleF, List.mem_map] at hr
    obtain ⟨row0, hr0, rfl⟩ := hr
    simpa using hrow row0 hr0

theorem addRegion_isRect {α : Type} [Zero α] [Add α] {g : List (List α)}
    {r c : Nat} (h : IsRect g r c) (hr : 1 ≤ r) (r0 c0 : Nat)
    (s : List (List α)) : IsRect (addRegion g r0 c0 s) r c := by
  unfold addRegion
  rw [show grows g = r from h.1, gcols_of_isRect h hr]
  exact buildG_isRect r c _

theorem subRegion_isRect {α : Type} [Zero α] [Sub α] {g : List (List α)}
    {r c : Nat} (h : IsRect g r c) (hr : 1 ≤ r) (r0 c0 : Nat)
    (s : List (List α)) : IsRect (subRegion g r0 c0 s) r c := by
  unfold subRegion
  rw [show grows g = r from h.1, gcols_of_isRect h hr]
  exact buildG_isRect r c _

theorem zassemble2_isRect {ll l : FGrid} {a b : Nat} (n m : Int)
    (hll : IsRect ll a a) (hl : IsRect l b b) (ha : 1 ≤ a) (hb : 1 ≤ b) :
    IsRect (zassemble2 n m ll l) (max a (b + 2)) (max a (b + 2)) := by
  have h0 : IsRect (zerosF (max (grows ll) (grows l + 2))
      (max (gcols ll) (gcols l + 2))) (max a (b + 2)) (max a (b + 2)) := by
    rw [show grows ll = a from hll.1, show grows l = b from hl.1,
      gcols_of_isRect hll ha, gcols_of_isRect hl hb]
    exact isRect_zerosF _ _
  have hm1 : 1 ≤ max a (b + 2) := by omega
  unfold zassemble2
  exact subRegion_isRect (subRegion_isRect (addRegion_isRect
    (addRegion_isRect h0 hm1 _ _ _) hm1 _ _ _) hm1 _ _ _) hm1 _ _ _

theorem zassembleE_isRect {ll l : FGrid} {a b : Nat}
    (hll : IsRect ll a a) (hl : IsRect l b b) (ha : 1 ≤ a) (hb : 1 ≤ b) :
    IsRect (zassembleE ll l) (max (a + 2) (b + 1)) (max (a + 2) b) := by
  have h0 : IsRect (zerosF (max (grows ll + 2) (grows l + 1))
      (max (gcols ll + 2) (gcols l))) (max (a + 2) (b + 1)) (max (a + 2) b) := by
    rw [show grows ll = a from hll.1, show grows l = b from hl.1,
      gcols_of_isRect hll ha, gcols_of_isRect hl hb]
    exact isRect_zerosF _ _
  have hm1 : 1 ≤ max (a + 2) (b + 1) := by omega
  unfold zassembleE
  exact addRegion_isRect (subRegion_isRect (subRegion_isRect h0 hm1 _ _ _)
    hm1 _ _ _) hm1 _ _ _

theorem zlookup_shape {n m : Int} {g : FGrid} (h : zlookup n m = some g) :
    IsRect g ((n + 1).toNat) ((n + 1).toNat) := by
  unfold zlookup at h
  split at h
  · next hc =>
    obtain ⟨rfl, rfl⟩ := hc
    cases h
    constructor <;> simp +decide
  · split at h
    · next hc =>
      obtain ⟨rfl, rfl⟩ := hc
      cases h
      constructor <;> simp +decide
    · split at h
      · next hc =>
        obtain ⟨rfl, rfl⟩ := hc
        cases h
        constructor <;> simp +decide
      · split at h
        · next hc =>
          obtain ⟨rfl, rfl⟩ := hc
          cases h
          constructor <;> simp +decide
        · split at h
          · next hc =>
            obtain ⟨rfl, rfl⟩ := hc
            cases h
            constructor <;> simp +decide
          · split at h
            · next hc =>
              obtain ⟨rfl, rfl⟩ := hc
              cases h
              constructor <;> simp +decide
            · exact absurd h (by simp)

theorem zernikeF_abs {f : Nat} {n m : Int} (h : n < (m.natAbs : Int))
    (hf : 1 ≤ f) : getZernikeF f n m = .ok (zerosF 1 1) := by
  cases f with
  | zero => omega
  | succ f => exact zstep_zeros _ h

theorem valid_sub2 {n m : Int} (hv : validIdx n m) (hlt : (m.natAbs : Int) < n) :
    validIdx (n - 2) m := by
  obtain ⟨h0, hle, hp⟩ := hv
  exact ⟨by omega, by omega, by omega⟩

theorem valid_sub4 {n m : Int} (hv : validIdx n m) (hle : (m.natAbs : Int) ≤ n - 4) :
    validIdx (n - 4) m := by
  obtain ⟨h0, -, hp⟩ := hv
  exact ⟨by omega, hle, by omega⟩

theorem valid_no_div {n m : Int} (hv : validIdx n m) (hlt : (m.natAbs : Int) < n)
    (hlk : zlookup n m = none) : ¬ (n + m = 0 ∨ n - m = 0 ∨ n - 2 = 0) := by
  obtain ⟨h0, hle, hp⟩ := hv
  rintro (h | h | h)
  · omega
  · omega
  · have hm : m = 0 := by omega
    subst hm
    have hn : n = 2 := by omega
    subst hn
    exact absurd hlk (by decide)

theorem edge_ge_three {n m : Int} (hv : validIdx n m)
    (habs : ¬ n < (m.natAbs : Int)) (hlt : ¬ (m.natAbs : Int) < n)
    (hlk : zlookup n m = none) : 3 ≤ n := by
  by_contra hc
  have h1 : n = (m.natAbs : Int) := by omega
  have h3 : n = 0 ∨ n = 1 ∨ n = 2 := by
    obtain ⟨h0, -, -⟩ := hv
    omega
  have hmm : m = n ∨ m = -n := by omega
  rcases h3 with rfl | rfl | rfl <;> rcases hmm with rfl | rfl <;>
    revert hlk <;> decide

theorem pos_sign_div {m : Int} (h : 0 < m) : m / (m.natAbs : Int) = 1 := by
  rw [Int.natAbs_of_nonneg (le_of_lt h)]
  exact Int.ediv_self (by omega)

theorem neg_sign_div {m : Int} (h : m < 0) : m / (m.natAbs : Int) = -1 := by
  have h2 : (m.natAbs : Int) = -m := by omega
  rw [h2, Int.ediv_neg, Int.ediv_self (by omega)]

/-- for every docstring-valid `(n, m)` the recursion succeeds and the
grid is square of side `n + 1`. -/
theorem zernikeF_valid : ∀ fuel : Nat, ∀ n m : Int,
    (n + 2).toNat < fuel → validIdx n m →
    ∃ g, getZernikeF fuel n m = .ok g ∧
      IsRect g ((n + 1).toNat) ((n + 1).toNat) := by
  intro fuel
  induction fuel with
  | zero => intro n m hf; omega
  | succ f ih =>
    intro n m hf hv
    show ∃ g, zstep (getZernikeF f) n m = .ok g ∧
      IsRect g ((n + 1).toNat) ((n + 1).toNat)
    have habs : ¬ n < (m.natAbs : Int) := by
      obtain ⟨-, hle, -⟩ := hv
      omega
    rcases hlk : zlookup n m with - | g
    · by_cases hlt : (m.natAbs : Int) < n
      · -- general three-term recurrence
        have hf2 := fuel_sub2 hf hlt
        have hf4 := fuel_sub4 hf hlt
        obtain ⟨gl, hl, hlrect⟩ := ih (n - 2) m hf2 (valid_sub2 hv hlt)
        have hll : ∃ a, 1 ≤ a ∧ a ≤ (n + 1).toNat ∧
            ∃ gll, getZernikeF f (n - 4) m = .ok gll ∧ IsRect gll a a := by
          by_cases h4 : (m.natAbs : Int) ≤ n - 4
          · obtain ⟨gll, hgll, hr⟩ := ih (n - 4) m hf4 (valid_sub4 hv h4)
            exact ⟨((n - 4) + 1).toNat, by omega, by omega, gll, hgll, hr⟩
          · refine ⟨1, by omega, by omega, zerosF 1 1, ?_, isRect_zerosF 1 1⟩
            exact zernikeF_abs (by omega) (by omega)
        obtain ⟨a, ha1, hale, gll, hgll, hllrect⟩ := hll
        refine ⟨zassemble2 n m gll gl,
          zstep_gen_ok _ habs hlk hlt hgll hl (valid_no_div hv hlt hlk), ?_⟩
        have hrect := zassemble2_isRect n m hllrect hlrect ha1 (by omega)
        have hmax : max a (((n - 2) + 1).toNat + 2) = (n + 1).toNat := by omega
        rwa [hmax] at hrect
      · -- edge `n = |m|`
        have h3 := edge_ge_three hv habs hlt hlk
        have hm0 : ¬ m = 0 := by
          intro h
          subst h
          simp at habs hlt
          omega
        have hfa : ((n - 2) + 2).toNat < f := by omega
        have hfb : ((n - 1) + 2).toNat < f := by omega
        by_cases hmp : 0 < m
        · have e1 : m - 2 * (m / (m.natAbs : Int)) = m - 2 := by
            rw [pos_sign_div hmp]; ring
          have e2 : m - m / (m.natAbs : Int) = m - 1 := by
            rw [pos_sign_div hmp]
          have hva : validIdx (n - 2) (m - 2) := by
            obtain ⟨-, -, hp⟩ := hv
            refine ⟨by omega, by omega, by omega⟩
          have hvb : validIdx (n - 1) (m - 1) := by
            obtain ⟨-, -, hp⟩ := hv
            refine ⟨by omega, by omega, by omega⟩
          obtain ⟨gll, hgll, hra⟩ := ih (n - 2) (m - 2) hfa hva
          obtain ⟨gl, hgl, hrb⟩ := ih (n - 1) (m - 1) hfb hvb
          refine ⟨zassembleE gll gl,
            zstep_edge_ok _ habs hlk hlt hm0 (by rwa [e1]) (by rwa [e2]), ?_⟩
          have hrect := zassembleE_isRect hra hrb (by omega) (by omega)
          have hm1 : max (((n - 2) + 1).toNat + 2) (((n - 1) + 1).toNat + 1) =
              (n + 1).toNat := by omega
          have hm2 : max (((n - 2) + 1).toNat + 2) (((n - 1) + 1).toNat) =
              (n + 1).toNat := by omega
          rwa [hm1, hm2] at hrect
        · have hmn : m < 0 := by omega
          have e1 : m - 2 * (m / (m.natAbs : Int)) = m + 2 := by
            rw [neg_sign_div hmn]; ring
          have e2 : m - m / (m.natAbs : Int) = m + 1 := by
            rw [neg_sign_div hmn]; ring
          have hva : validIdx (n - 2) (m + 2) := by
            obtain ⟨-, hle, hp⟩ := hv
            refine ⟨by omega, by omega, by omega⟩
          have hvb : validIdx (n - 1) (m + 1) := by
            obtain ⟨-, hle, hp⟩ := hv
            refine ⟨by omega, by omega, by omega⟩
          obtain ⟨gll, hgll, hra⟩ := ih (n - 2) (m + 2) hfa hva
          obtain ⟨gl, hgl, hrb⟩ := ih (n - 1) (m + 1) hfb hvb
          refine ⟨zassembleE gll gl,
            zstep_edge_ok _ habs hlk hlt hm0 (by rwa [e1]) (by rwa [e2]), ?_⟩
          have hrect := zassembleE_isRect hra hrb (by omega) (by omega)
          have hm1 : max (((n - 2) + 1).toNat + 2) (((n - 1) + 1).toNat + 1) =
              (n + 1).toNat := by omega
          have hm2 : max (((n - 2) + 1).toNat + 2) (((n - 1) + 1).toNat) =
              (n + 1).toNat := by omega
          rwa [hm1, hm2] at hrect
    · exact ⟨g, zstep_cache _ habs hlk, zlookup_shape hlk⟩

/-! ### `get_orthophi_xypolycoefs` (opticsmath.py lines 78-110) and
`extendbasis` (lines 112-161) -/

/-- lift a rational grid into the `RT3` value domain. -/
def castG (g : FGrid) : Grid := g.map (fun row => row.map RT3.ofFrac)

/-- `-arr`. -/
def negG (g : Grid) : Grid := g.map (fun row => row.map RT3.neg)

/-- `s * arr` for an `RT3` scalar. -/
def scaleR (s : RT3) (g : Grid) : Grid := g.map (fun row => row.map (fun v => s * v))

/-- `numpy.zeros((r, c))` over `RT3`. -/
def zerosR (r c : Nat) : Grid := buildG r c (fun _ _ => 0)

/-- exact square root of a perfect-square nonnegative fraction. -/
def ratSqrt (x : Frac) : Option Frac :=
  if 0 ≤ x.num then
    let sn := Nat.sqrt x.num.toNat
    let sd := Nat.sqrt x.den.toNat
    if ((sn : Int) * sn = x.num ∧ (sd : Int) * sd = x.den) then
      some ⟨(sn : Int), (sd : Int)⟩
    else none
  else none

/-- `math.sqrt` on nonnegative values, modelled exactly on the
arguments the analysed executions produce: `3` (from `1 + 2/(n-1)` at
`n = 2`) maps to `√3`, perfect-square rationals map to their rational
roots; the remaining values are not exercised by any theorem in this
file (the theorems that evaluate concrete numbers only reach degrees 1
and 2) and map to `0`. -/
def sqrtRT3 (x : RT3) : RT3 :=
  if x.b.isZero then
    if (x.a - (3 : Frac)).isZero then ⟨0, 1⟩
    else
      match ratSqrt x.a with
      | some r => RT3.ofFrac r
      | none => 0
  else 0

/-- `get_orthophi_xypolycoefs(n, m)`: the raw polynomial on the edge
`n = |m|`; otherwise subtract the scaled `(n-2, m)` polynomial from the
top-left block.  `math.sqrt` of a negative argument raises `ValueError`
and a scaled grid larger than the output slice would be a numpy
broadcast `ValueError`; neither happens for valid indices. -/
def get_orthophi_xypolycoefs (n m : Int) : Except PyErr Grid :=
  if n = (m.natAbs : Int) then (get_zernike_xypolycoefs n m).map castG
  else
    match get_zernike_xypolycoefs n m, get_zernike_xypolycoefs (n - 2) m with
    | .error e, _ => .error e
    | .ok _, .error e => .error e
    | .ok zc, .ok zl =>
      if n - 1 = 0 then .error .zeroDivisionError
      else if Frac.blt ((1 : Frac) + (2 : Frac) / Frac.ofInt (n - 1)) 0 then
        .error .valueError
      else if grows (scaleR (sqrtRT3 (RT3.ofFrac
            ((1 : Frac) + (2 : Frac) / Frac.ofInt (n - 1)))) (castG zl)) ≤
          grows (castG zc) ∧
          gcols (scaleR (sqrtRT3 (RT3.ofFrac
            ((1 : Frac) + (2 : Frac) / Frac.ofInt (n - 1)))) (castG zl)) ≤
          gcols (castG zc) then
        .ok (subRegion (castG zc) 0 0 (scaleR (sqrtRT3 (RT3.ofFrac
          ((1 : Frac) + (2 : Frac) / Frac.ofInt (n - 1)))) (castG zl)))
      else .error .valueError

/-- Python `range(degree, -1, -2)`. -/
def pyRangeDown2 (d : Int) : List Int :=
  if d < 0 then []
  else (List.range (d / 2 + 1).toNat).map (fun (k : Nat) => d - 2 * (k : Int))

/-- one iteration of the `extendbasis` loop body for azimuthal index `m`
(opticsmath.py lines 143-160). -/
def ebBlock (degree m : Int) : Except PyErr (List (Grid × Grid)) :=
  if m = 0 then
    match get_orthophi_xypolycoefs degree 0 with
    | .error e => .error e
    | .ok phi =>
      let pderx := polypder2d phi true
      let pdery := polypder2d phi false
      .ok [(pderx, pdery), (pdery, negG pderx)]
  else
    match get_orthophi_xypolycoefs degree m, get_orthophi_xypolycoefs degree (-m) with
    | .error e, _ => .error e
    | .ok _, .error e => .error e
    | .ok phicos, .ok phisin =>
      let cospderx := polypder2d phicos true
      let cospdery := polypder2d phicos false
      let sinpderx := polypder2d phisin true
      let sinpdery := polypder2d phisin false
      .ok ([(cospderx, cospdery), (sinpderx, sinpdery)] ++
        (if m ≠ degree then [(cospdery, negG cospderx), (sinpdery, negG sinpderx)]
         else []))

/-- the `for m in range(degree, -1, -2)` loop, appending each block. -/
def ebLoop (degree : Int) : List Int → Except PyErr (List (Grid × Grid))
  | [] => .ok []
  | m :: rest =>
    match ebBlock degree m with
    | .error e => .error e
    | .ok blk =>
      match ebLoop degree rest with
      | .error e => .error e
      | .ok tail => .ok (blk ++ tail)

/-- `extendbasis(degree)`: `None` for negative degree, the single zero
placeholder pair for degree 0, otherwise the per-`m` blocks in loop
order. -/
def extendbasis (degree : Int) : Except PyErr (Option (List (Grid × Grid))) :=
  if degree < 0 then .ok none
  else if degree = 0 then .ok (some [(zerosR 1 1, zerosR 1 1)])
  else (ebLoop degree (pyRangeDown2 degree)).map some

theorem castG_isRect {g : FGrid} {r c : Nat} (h : IsRect g r c) :
    IsRect (castG g) r c := by
  obtain ⟨hlen, hrow⟩ := h
  constructor
  · simpa [castG] using hlen
  · intro row hr
    simp only [castG, List.mem_map] at hr
    obtain ⟨row0, hr0, rfl⟩ := hr
    simpa using hrow row0 hr0

theorem scaleR_isRect {g : Grid} {r c : Nat} (s : RT3) (h : IsRect g r c) :
    IsRect (scaleR s g) r c := by
  obtain ⟨hlen, hrow⟩ := h
  constructor
  · simpa [scaleR] using hlen
  · intro row hr
    simp only [scaleR, List.mem_map] at hr
    obtain ⟨row0, hr0, rfl⟩ := hr
    simpa using hrow row0 hr0

theorem orthophi_arg_nonneg {n : Int} (hn : 2 ≤ n) :
    Frac.blt ((1 : Frac) + (2 : Frac) / Frac.ofInt (n - 1)) 0 = false := by
  have hinv : (Frac.ofInt (n - 1)).inv = ⟨1, n - 1⟩ := by
    unfold Frac.inv Frac.ofInt
    rw [if_pos (by omega : (0 : Int) < n - 1)]
  show Frac.blt (Frac.add 1 (Frac.mul 2 (Frac.ofInt (n - 1)).inv)) 0 = false
  rw [hinv]
  unfold Frac.add Frac.mul Frac.blt
  simp only [Frac.num, Frac.den]
  apply decide_eq_false
  show ¬ ((1 : Int) * (1 * (n - 1)) + 2 * 1 * 1) * 1 < 0 * (1 * (1 * (n - 1)))
  omega

/-- for every docstring-valid `(n, m)`, `get_orthophi_xypolycoefs`
succeeds and its grid is square of side `n + 1`. -/
theorem orthophi_valid {n m : Int} (hv : validIdx n m) :
    ∃ g, get_orthophi_xypolycoefs n m = .ok g ∧
      IsRect g ((n + 1).toNat) ((n + 1).toNat) := by
  by_cases he : n = (m.natAbs : Int)
  · obtain ⟨g, hg, hr⟩ := zernikeF_valid ((n + 2).toNat + 1) n m (by omega) hv
    refine ⟨castG g, ?_, castG_isRect hr⟩
    unfold get_orthophi_xypolycoefs get_zernike_xypolycoefs
    rw [if_pos he, hg]
    rfl
  · have hlt : (m.natAbs : Int) < n := by
      obtain ⟨-, hle, -⟩ := hv
      omega
    have hn2 : 2 ≤ n := by
      obtain ⟨-, -, hp⟩ := hv
      omega
    have hv2 := valid_sub2 hv hlt
    obtain ⟨zc, hzc, hrc⟩ := zernikeF_valid ((n + 2).toNat + 1) n m (by omega) hv
    obtain ⟨zl, hzl, hrl⟩ :=
      zernikeF_valid (((n - 2) + 2).toNat + 1) (n - 2) m (by omega) hv2
    have hgl : grows (scaleR (sqrtRT3 (RT3.ofFrac
        ((1 : Frac) + (2 : Frac) / Frac.ofInt (n - 1)))) (castG zl)) =
        ((n - 2) + 1).toNat :=
      (scaleR_isRect _ (castG_isRect hrl)).1
    have hcl : gcols (scaleR (sqrtRT3 (RT3.ofFrac
        ((1 : Frac) + (2 : Frac) / Frac.ofInt (n - 1)))) (castG zl)) =
        ((n - 2) + 1).toNat :=
      gcols_of_isRect (scaleR_isRect _ (castG_isRect hrl)) (by omega)
    have hgc : grows (castG zc) = (n + 1).toNat := (castG_isRect hrc).1
    have hcc : gcols (castG zc) = (n + 1).toNat :=
      gcols_of_isRect (castG_isRect hrc) (by omega)
    refine ⟨subRegion (castG zc) 0 0 (scaleR (sqrtRT3 (RT3.ofFrac
        ((1 : Frac) + (2 : Frac) / Frac.ofInt (n - 1)))) (castG zl)), ?_,
      subRegion_isRect (castG_isRect hrc) (by omega) _ _ _⟩
    unfold get_orthophi_xypolycoefs get_zernike_xypolycoefs
    rw [if_neg he]
    simp only [hzc, hzl]
    rw [if_neg (by omega : ¬ n - 1 = 0)]
    rw [if_neg (by rw [orthophi_arg_nonneg hn2]; exact Bool.false_ne_true)]
    rw [if_pos (by rw [hgl, hcl, hgc, hcc]; omega)]

/-- number of basis elements contributed by each `m` of the loop:
2 for `m = 0` (one div, one curl) and for `m = degree` (two divs, no
curls), otherwise 4. -/
def sumBlk (d : Int) (lst : List Int) : Nat :=
  (lst.map (fun m => if m = 0 ∨ m = d then 2 else 4)).sum

theorem sumBlk_nil (d : Int) : sumBlk d [] = 0 := rfl

theorem sumBlk_cons (d m : Int) (rest : List Int) :
    sumBlk d (m :: rest) = (if m = 0 ∨ m = d then 2 else 4) + sumBlk d rest := by
  simp [sumBlk]

theorem ebBlock_ok {d m : Int} (hd : 1 ≤ d) (hm : 0 ≤ m) (hle : m ≤ d)
    (hp : d % 2 = m % 2) :
    ∃ blk, ebBlock d m = .ok blk ∧
      blk.length = (if m = 0 ∨ m = d then 2 else 4) := by
  by_cases hm0 : m = 0
  · subst hm0
    obtain ⟨phi, hphi, -⟩ :=
      orthophi_valid (n := d) (m := 0) ⟨by omega, by omega, by omega⟩
    refine ⟨[(polypder2d phi true, polypder2d phi false),
      (polypder2d phi false, negG (polypder2d phi true))], ?_, ?_⟩
    · unfold ebBlock
      rw [if_pos rfl]
      simp only [hphi]
    · rw [if_pos (Or.inl rfl)]
      rfl
  · have hvc : validIdx d m := ⟨by omega, by omega, hp⟩
    have hvs : validIdx d (-m) := ⟨by omega, by omega, by omega⟩
    obtain ⟨phicos, hc, -⟩ := orthophi_valid hvc
    obtain ⟨phisin, hs, -⟩ := orthophi_valid hvs
    by_cases hmd : m = d
    · refine ⟨[(polypder2d phicos true, polypder2d phicos false),
        (polypder2d phisin true, polypder2d phisin false)] ++ [], ?_, ?_⟩
      · unfold ebBlock
        rw [if_neg hm0]
        simp only [hc, hs]
        rw [if_neg (fun h => h hmd)]
      · rw [if_pos (Or.inr hmd)]
        rfl
    · refine ⟨[(polypder2d phicos true, polypder2d phicos false),
        (polypder2d phisin true, polypder2d phisin false)] ++
        [(polypder2d phicos false, negG (polypder2d phicos true)),
         (polypder2d phisin false, negG (polypder2d phisin true))], ?_, ?_⟩
      · unfold ebBlock
        rw [if_neg hm0]
        simp only [hc, hs]
        rw [if_pos hmd]
      · rw [if_neg (by rintro (h | h) <;> [exact hm0 h; exact hmd h])]
        rfl

theorem ebLoop_ok {d : Int} (hd : 1 ≤ d) : ∀ lst : List Int,
    (∀ m ∈ lst, 0 ≤ m ∧ m ≤ d ∧ d % 2 = m % 2) →
    ∃ l, ebLoop d lst = .ok l ∧ l.length = sumBlk d lst := by
  intro lst
  induction lst with
  | nil => exact fun _ => ⟨[], rfl, rfl⟩
  | cons m rest ih =>
    intro hmem
    obtain ⟨h0, hle, hp⟩ := hmem m (by simp)
    obtain ⟨blk, hblk, hblen⟩ := ebBlock_ok hd h0 hle hp
    obtain ⟨tail, htail, htlen⟩ := ih (fun x hx => hmem x (by simp [hx]))
    refine ⟨blk ++ tail, ?_, ?_⟩
    · simp only [ebLoop, hblk, htail]
    · rw [List.length_append, hblen, htlen, sumBlk_cons]

theorem mem_pyRangeDown2 {d m : Int} (hd : 0 ≤ d) (h : m ∈ pyRangeDown2 d) :
    0 ≤ m ∧ m ≤ d ∧ d % 2 = m % 2 := by
  unfold pyRangeDown2 at h
  rw [if_neg (by omega)] at h
  simp only [List.mem_map, List.mem_range] at h
  obtain ⟨k, hk, rfl⟩ := h
  have hd2 : ((d / 2 + 1).toNat : Int) = d / 2 + 1 := by omega
  have hki : ((k : Nat) : Int) < d / 2 + 1 := by omega
  refine ⟨?_, ?_, ?_⟩
  · omega
  · omega
  · omega

theorem pyRangeDown2_cons {d : Int} (hd : 0 ≤ d) :
    pyRangeDown2 d = d :: pyRangeDown2 (d - 2) := by
  by_cases h2 : 2 ≤ d
  · unfold pyRangeDown2
    rw [if_neg (by omega), if_neg (by omega)]
    have hc : (d / 2 + 1).toNat = ((d - 2) / 2 + 1).toNat + 1 := by omega
    rw [hc, List.range_succ_eq_map, List.map_cons, List.map_map]
    refine (List.cons_eq_cons).mpr ⟨by omega, ?_⟩
    refine List.map_congr_left ?_
    intro k hk
    simp only [Function.comp_apply, Nat.succ_eq_add_one]
    omega
  · have hd01 : d = 0 ∨ d = 1 := by omega
    rcases hd01 with rfl | rfl <;> decide

theorem sumBlk_small : ∀ k : Nat, ∀ e d : Int, e.toNat ≤ k → 0 ≤ e → e < d →
    sumBlk d (pyRangeDown2 e) = 2 * e.toNat + 2 := by
  intro k
  induction k with
  | zero =>
    intro e d hk h0 hlt
    have he : e = 0 := by omega
    subst he
    show sumBlk d [0] = 2
    rw [show ([0] : List Int) = 0 :: [] from rfl, sumBlk_cons]
    rw [if_pos (Or.inl rfl), sumBlk_nil]
  | succ k ih =>
    intro e d hk h0 hlt
    by_cases he0 : e = 0
    · subst he0
      show sumBlk d [0] = 2
      rw [show ([0] : List Int) = 0 :: [] from rfl, sumBlk_cons]
      rw [if_pos (Or.inl rfl), sumBlk_nil]
    · by_cases he1 : e = 1
      · subst he1
        show sumBlk d [1] = 4
        rw [show ([1] : List Int) = 1 :: [] from rfl, sumBlk_cons]
        rw [if_neg (by rintro (h | h) <;> omega), sumBlk_nil]
      · rw [pyRangeDown2_cons h0, sumBlk_cons]
        rw [ih (e - 2) d (by omega) (by omega) (by omega)]
        rw [if_neg (by rintro (h | h) <;> omega)]
        omega

theorem sumBlk_top {d : Int} (hd : 1 ≤ d) :
    sumBlk d (pyRangeDown2 d) = 2 * d.toNat := by
  rw [pyRangeDown2_cons (by omega), sumBlk_cons]
  rw [if_pos (Or.inr rfl)]
  by_cases h1 : d = 1
  · subst h1
    rw [show pyRangeDown2 (1 - 2) = [] by decide, sumBlk_nil]
    decide
  · rw [sumBlk_small (d - 2).toNat (d - 2) d (le_refl _) (by omega) (by omega)]
    omega

/-- Claim C2: for every degree `d ≥ 1`, `extendbasis(d)` succeeds and
returns exactly `2*d` tuples: in the loop over `m = d, d-2, ..., 1|0`,
the `m = 0` potential contributes one gradient and one curl element,
every `m ≠ 0` contributes two gradient elements, and the corresponding
two curl elements are appended only when `m ≠ d` (`ebBlock`), which
makes the total `2 + 4*(#middle m) + (2 if d is even)` collapse to
`2*d`. -/
theorem c2_extendbasis_count (d : Int) (hd : 1 ≤ d) :
    ∃ l, extendbasis d = .ok (some l) ∧ (l.length : Int) = 2 * d := by
  obtain ⟨l, hl, hlen⟩ :=
    ebLoop_ok hd (pyRangeDown2 d) (fun m hm => mem_pyRangeDown2 (by omega) hm)
  refine ⟨l, ?_, ?_⟩
  · unfold extendbasis
    rw [if_neg (by omega), if_neg (by omega), hl]
    rfl
  · rw [hlen, sumBlk_top hd]
    omega

/-- Claim C2 witness: the count theorem applied at degree 2, whose
basis has `2 * 2 = 4` elements. -/
theorem c2_extendbasis_count_witness :
    ∃ l, extendbasis 2 = .ok (some l) ∧ (l.length : Int) = 2 * 2 :=
  c2_extendbasis_count 2 (by decide)

/-! ### `applytransform` (opticsmath.py lines 263-281) -/

/-- `x ^ k`. -/
def powR (x : RT3) : Nat → RT3
  | 0 => 1
  | k + 1 => x * powR x k

/-- `numpy.polynomial.polynomial.polyval2d(x, y, c) = Σ c[i][j] x^i y^j`. -/
def polyval2d (x y : RT3) (c : Grid) : RT3 :=
  (c.mapIdx (fun i row =>
    (row.mapIdx (fun j v => v * (powR x i * powR y j))).foldl RT3.add 0)).foldl
    RT3.add 0

/-- `xys[0::2]`. -/
def slice02 {α : Type} : List α → List α
  | [] => []
  | [x] => [x]
  | x :: _ :: rest => x :: slice02 rest

/-- `xys[1::2]`. -/
def slice12 {α : Type} : List α → List α
  | [] => []
  | [_] => []
  | _ :: y :: rest => y :: slice12 rest

/-- class attribute `tx_xypolycoefs` (opticsmath.py line 26). -/
def tx_xypolycoefs : Grid := [[0, 0], [1, 0]]

/-- class attribute `ty_xypolycoefs` (opticsmath.py line 27). -/
def ty_xypolycoefs : Grid := [[0, 1], [0, 0]]

/-- `applytransform(xys)` with the stored coefficient grids passed
explicitly.  `outxys = [a for a in xys]` is a Python *list*, so the
augmented slice assignment `outxys[0::2] += vals` is
`outxys[0::2] = list.__iadd__(outxys[0::2], vals)`: the `__iadd__` of a
list *extends* it (it is not elementwise addition), and assigning the
doubled sequence back to the extended slice of half the size raises
`ValueError` whenever the point list is nonempty; the polyval2d call
itself raises on uneven slice lengths (odd input). -/
def applytransform (tx ty : Grid) (xys : List RT3) : Except PyErr (List RT3) :=
  if (slice02 xys).length ≠ (slice12 xys).length then .error .valueError
  else if ((slice02 xys) ++
      (List.zipWith (fun x y => polyval2d x y tx) (slice02 xys)
        (slice12 xys))).length = (slice02 xys).length then
    if ((slice12 xys) ++
        (List.zipWith (fun x y => polyval2d x y ty) (slice02 xys)
          (slice12 xys))).length = (slice12 xys).length then
      .ok xys
    else .error .valueError
  else .error .valueError

/-- Claim C6: evaluated at the single point `(0, 0)` with the initial
stored coefficient grids, `applytransform` raises `ValueError`
(extended-slice size mismatch) instead of returning the transformed
point list. -/
theorem c6_applytransform_raises_valueerror :
    applytransform tx_xypolycoefs ty_xypolycoefs [0, 0] = .error .valueError := rfl

/-! ### `warpcoefs.__init__` (opticsmath.py lines 20-22) and
`detectwarp` (dewarp.py line 113) -/

/-- the attributes the `warpcoefs` class body defines (opticsmath.py
lines 20-281); there is no `computeweights`. -/
def warpcoefs_class_attrs : List String :=
  ["__init__", "zernike_xypolycoefs", "tx_xypolycoefs", "ty_xypolycoefs",
   "get_zernike_xypolycoefs", "get_orthophi_xypolycoefs", "extendbasis",
   "computetransform", "randomizetransform", "applytransform"]

/-- `warpcoefs.__init__`: when all three arguments are non-None it
evaluates `self.computeweights`, an attribute lookup on a fresh
instance (empty instance dict) that falls through to the class
attributes and fails with `AttributeError`. -/
def warpcoefs_init (fromxys toxys : Option (List RT3)) (maxerr : Option RT3) :
    Except PyErr Unit :=
  if fromxys.isSome && toxys.isSome && maxerr.isSome then
    if warpcoefs_class_attrs.contains "computeweights" then
      .ok ()
    else .error .attributeError
  else .ok ()

/-- Claim C5: constructing `warpcoefs(fromxys, toxys, maxerr)` with all
arguments non-None (as `detectwarp` does with
`warpcoefs(observed_xys, ideal_xys, .01)`) raises `AttributeError`
because the class has no `computeweights` method, while the
zero-argument constructor succeeds. -/
theorem c5_init_attributeerror :
    (∀ (f t : List RT3) (m : RT3),
      warpcoefs_init (some f) (some t) (some m) = .error .attributeError) ∧
    warpcoefs_init none none none = .ok () :=
  ⟨fun _ _ _ => rfl, rfl⟩

/-! ### `centroids_hullbijected` (imgutils.py lines 56-92) -/

/-- the names defined at module level in imgutils.py (imports and
function definitions); there is no `filename`. -/
def imgutils_module_attrs : List String :=
  ["fits", "numpy", "opticsmath", "writetoimage", "readimage",
   "centroids_hullbijected", "centroids", "genimg"]

/-- the Python builtins the function body mentions. -/
def python_builtins : List String := ["len", "range", "abs", "int", "float"]

/-- Python name resolution inside a function body of imgutils.py:
locals, then module globals, then builtins; an unbound name raises
`NameError`. -/
def resolveName (locals : List String) (name : String) : Except PyErr Unit :=
  if locals.contains name || imgutils_module_attrs.contains name ||
      python_builtins.contains name then .ok ()
  else .error .nameError

/-- `centroids_hullbijected(data, expectedxys)`: its first statement is
`copy_centroidxys = centroids(filename)` (imgutils.py line 73); the
callee name resolves but the argument name `filename` is neither a
local, a module global, nor a builtin, so the call raises `NameError`
before any matching happens.  (Were the argument the intended `data`,
the stub `centroids` — body `pass` — would return `None` and
`len(None)` on line 74 would raise `TypeError`; the peeling loop also
calls `opticsmath.untrueconvexhull`, which does not exist in
opticsmath.py.) -/
def centroids_hullbijected (data : List (List RT3)) (expectedxys : List RT3) :
    Except PyErr (List RT3) := do
  let _ ← resolveName ["data", "expectedxys"] "centroids"
  let _ ← resolveName ["data", "expectedxys"] "filename"
  .error .typeError

/-- Claim C4: for every input the hull-peeling matcher raises
`NameError` at its first statement (undefined name `filename`),
so it neither returns the `None` sentinel nor any reordering. -/
theorem c4_hullbijected_raises_nameerror :
    ∀ (data : List (List RT3)) (expectedxys : List RT3),
      centroids_hullbijected data expectedxys = .error .nameError :=
  fun _ _ => rfl

/-! ### the class-level polynomial cache (opticsmath.py lines 25, 57,
67, 75)

`zernike_xypolycoefs` is declared in the *class body* of `warpcoefs`
(line 25), so it is a single dict object on the class.  The method
writes with `self.zernike_xypolycoefs[(n,m)] = out`: the attribute read
on a fresh instance finds no instance attribute and falls back to the
class attribute, and the item assignment mutates that shared dict in
place — no instance attribute is ever created.  The cache state is
modelled as an insertion-ordered association list threading through the
recursion. -/

/-- insertion-ordered cache contents, keyed by `(n, m)`. -/
abbrev ZCache := List ((Int × Int) × FGrid)

/-- the initial class-level dict, opticsmath.py line 25. -/
def zcacheInit : ZCache :=
  [((0, 0), [[1]]),
   ((1, -1), [[0, 1], [0, 0]]),
   ((1, 1), [[0, 0], [1, 0]]),
   ((2, 2), [[0, 0, -1], [0, 0, 0], [1, 0, 0]]),
   ((2, -2), [[0, 0, 0], [0, 2, 0], [0, 0, 0]]),
   ((2, 0), [[-1, 0, 2], [0, 0, 0], [2, 0, 0]])]

/-- dict lookup `(n, m) in cache`. -/
def zcacheFind (c : ZCache) (n m : Int) : Option FGrid :=
  match c with
  | [] => none
  | (key, g) :: rest => if key = (n, m) then some g else zcacheFind rest n m

/-- `get_zernike_xypolycoefs` with the cache state threaded (the same
recursion as `getZernikeF`, but consulting and extending the live
dict; a new key is appended, matching dict insertion order). -/
def getZernikeStF : Nat → ZCache → Int → Int → (Except PyErr FGrid) × ZCache
  | 0, c, _, _ => (.ok [], c)
  | fuel + 1, c, n, m =>
    if n < (m.natAbs : Int) then (.ok (zerosF 1 1), c)
    else match zcacheFind c n m with
    | some g => (.ok g, c)
    | none =>
      if (m.natAbs : Int) < n then
        match getZernikeStF fuel c (n - 4) m with
        | (.error e, c1) => (.error e, c1)
        | (.ok lastlast, c1) =>
          match getZernikeStF fuel c1 (n - 2) m with
          | (.error e, c2) => (.error e, c2)
          | (.ok last, c2) =>
            if n + m = 0 ∨ n - m = 0 ∨ n - 2 = 0 then (.error .zeroDivisionError, c2)
            else (.ok (zassemble2 n m lastlast last),
              c2 ++ [((n, m), zassemble2 n m lastlast last)])
      else
        if m = 0 then (.error .zeroDivisionError, c)
        else
          match getZernikeStF fuel c (n - 2) (m - 2 * (m / (m.natAbs : Int))) with
          | (.error e, c1) => (.error e, c1)
          | (.ok lastlast, c1) =>
            match getZernikeStF fuel c1 (n - 1) (m - m / (m.natAbs : Int)) with
            | (.error e, c2) => (.error e, c2)
            | (.ok last, c2) => (.ok (zassembleE lastlast last),
              c2 ++ [((n, m), zassembleE lastlast last)])

/-- the mutable state shared by every `warpcoefs` instance: the class
attribute dict. -/
structure PyWorld where
  warpcoefs_class_cache : ZCache

/-- the cache a given instance observes through
`self.zernike_xypolycoefs`: the instance dict holds no such attribute,
so the lookup yields the class-level dict — for *every* instance. -/
def observable_cache_via_instance (w : PyWorld) : ZCache :=
  w.warpcoefs_class_cache

/-- calling `A.get_zernike_xypolycoefs(n, m)` on any instance `A` in
world `w`. -/
def call_get_zernike_on (w : PyWorld) (n m : Int) :
    (Except PyErr FGrid) × PyWorld :=
  ((getZernikeStF ((n + 2).toNat + 1) w.warpcoefs_class_cache n m).1,
   ⟨(getZernikeStF ((n + 2).toNat + 1) w.warpcoefs_class_cache n m).2⟩)

/-- the recursion only appends to the cache. -/
theorem getZernikeStF_appends : ∀ (fuel : Nat) (c : ZCache) (n m : Int),
    ∃ ext, (getZernikeStF fuel c n m).2 = c ++ ext := by
  intro fuel
  induction fuel with
  | zero => exact fun c n m => ⟨[], by simp [getZernikeStF]⟩
  | succ f ih =>
    intro c n m
    unfold getZernikeStF
    split
    · exact ⟨[], by simp⟩
    · split
      · exact ⟨[], by simp⟩
      · split
        · -- general branch: case on the two recursive results
          split
          · rename_i e c1 heq
            obtain ⟨e1, he1⟩ := ih c (n - 4) m
            rw [heq] at he1
            exact ⟨e1, he1⟩
          · rename_i ll c1 heq
            obtain ⟨e1, he1⟩ := ih c (n - 4) m
            rw [heq] at he1
            have he1x : c1 = c ++ e1 := he1
            split
            · rename_i e c2 heq2
              obtain ⟨e2, he2⟩ := ih c1 (n - 2) m
              rw [heq2] at he2
              have he2y : c2 = c1 ++ e2 := he2
              refine ⟨e1 ++ e2, ?_⟩
              show c2 = c ++ (e1 ++ e2)
              rw [he2y, he1x, List.append_assoc]
            · rename_i l c2 heq2
              obtain ⟨e2, he2⟩ := ih c1 (n - 2) m
              rw [heq2] at he2
              have he2y : c2 = c1 ++ e2 := he2
              have he2x : c2 = c ++ (e1 ++ e2) := by
                rw [he2y, he1x, List.append_assoc]
              split
              · exact ⟨e1 ++ e2, he2x⟩
              · refine ⟨e1 ++ e2 ++ [((n, m), zassemble2 n m ll l)], ?_⟩
                show c2 ++ [((n, m), zassemble2 n m ll l)] = _
                rw [he2x]
                simp [List.append_assoc]
        · split
          · exact ⟨[], by simp⟩
          · -- edge branch
            split
            · rename_i e c1 heq
              obtain ⟨e1, he1⟩ := ih c (n - 2) (m - 2 * (m / (m.natAbs : Int)))
              rw [heq] at he1
              exact ⟨e1, he1⟩
            · rename_i ll c1 heq
              obtain ⟨e1, he1⟩ := ih c (n - 2) (m - 2 * (m / (m.natAbs : Int)))
              rw [heq] at he1
              have he1x : c1 = c ++ e1 := he1
              split
              · rename_i e c2 heq2
                obtain ⟨e2, he2⟩ := ih c1 (n - 1) (m - m / (m.natAbs : Int))
                rw [heq2] at he2
                have he2y : c2 = c1 ++ e2 := he2
                refine ⟨e1 ++ e2, ?_⟩
                show c2 = c ++ (e1 ++ e2)
                rw [he2y, he1x, List.append_assoc]
              · rename_i l c2 heq2
                obtain ⟨e2, he2⟩ := ih c1 (n - 1) (m - m / (m.natAbs : Int))
                rw [heq2] at he2
                have he2y : c2 = c1 ++ e2 := he2
                have he2x : c2 = c ++ (e1 ++ e2) := by
                  rw [he2y, he1x, List.append_assoc]
                refine ⟨e1 ++ e2 ++ [((n, m), zassembleE ll l)], ?_⟩
                show c2 ++ [((n, m), zassembleE ll l)] = _
                rw [he2x]
                simp [List.append_assoc]

/-- Claim C8 counterexample: starting from the pristine class state,
calling `get_zernike_xypolycoefs(4, 0)` on instance `A` changes the set
of `(n, m)` keys observable through the distinct instance `B` — the
cache is one shared class-level dict, not per-instance state. -/
theorem c8_cache_shared_counterexample :
    (observable_cache_via_instance (call_get_zernike_on ⟨zcacheInit⟩ 4 0).2).map
        Prod.fst ≠
      (observable_cache_via_instance ⟨zcacheInit⟩).map Prod.fst := by
  decide

/-- Claim C8 (amended): the polynomial cache is class-scoped and shared:
after any call on instance `A`, every other instance `B` observes
exactly the one class-level dict, namely the prior contents extended by
the call's writes (the prior key set is always preserved, and new keys
- such as `(4, 0)` above - become visible to `B`). -/
theorem c8_cache_classlevel_amended :
    ∀ (w : PyWorld) (n m : Int), ∃ ext,
      observable_cache_via_instance (call_get_zernike_on w n m).2 =
        observable_cache_via_instance w ++ ext :=
  fun w n m => getZernikeStF_appends ((n + 2).toNat + 1) w.warpcoefs_class_cache n m

/-! ### `computetransform` (opticsmath.py lines 163-237)

The incremental least-squares fitter.  The design matrix and Gram
matrix are recomputed from the current basis list each iteration; the
source fills them incrementally (lines 200-210), but the retained old
entries are the same dot products of the same unchanged columns, so
the values coincide.  `numpy.linalg.inv` raises `LinAlgError` exactly
when the factorisation meets no usable pivot, i.e. (in exact
arithmetic) when the matrix is singular; it is modelled by exact
Gauss-Jordan elimination returning `none` on singular input.  Python
`list.remove` on tuples of numpy arrays is modelled including the
CPython identity shortcut (the elements carry allocation ids) and
numpy's rich comparison, whose `bool()` on a multi-element comparison
array raises `ValueError` (caught and passed by the source,
line 223-226). -/

/-- Euclid's algorithm on explicit fuel; `fuel = b + 1` always
suffices because the second argument strictly decreases. -/
def gcdF : Nat → Nat → Nat → Nat
  | 0, a, _ => a
  | fuel + 1, a, b => if b = 0 then a else gcdF fuel b (a % b)

/-- reduce a fraction to lowest terms; the value is unchanged, so the
modelled arithmetic is the same and only the representative shrinks. -/
def Frac.norm (x : Frac) : Frac :=
  match gcdF (x.den.toNat + 1) x.num.natAbs x.den.toNat with
  | 0 => x
  | g + 1 => ⟨x.num / ((g : Int) + 1), x.den / ((g : Int) + 1)⟩

/-- componentwise reduction of an `a + b·√3` value. -/
def RT3.normR (x : RT3) : RT3 := ⟨x.a.norm, x.b.norm⟩

/-- dot product (the running sum is kept in lowest terms). -/
def dotV (a b : List RT3) : RT3 :=
  (List.zipWith RT3.mul a b).foldl (fun acc v => RT3.normR (RT3.add acc v)) 0

/-- one column of `eval_matrix` (lines 201-203): rows `0::2` hold the
x-polynomial of the element at every point, rows `1::2` the
y-polynomial. -/
def elemColumn (pts : List (RT3 × RT3)) (e : Grid × Grid) : List RT3 :=
  (pts.map (fun p => [polyval2d p.1 p.2 e.1, polyval2d p.1 p.2 e.2])).flatten

/-- the interleaved point list as coordinate pairs. -/
def pairsOf (xys : List RT3) : List (RT3 × RT3) :=
  List.zip (slice02 xys) (slice12 xys)

/-- the columns of `eval_matrix` for a basis list. -/
def designCols (fromxys : List RT3) (basis : List (Nat × (Grid × Grid))) :
    List (List RT3) :=
  basis.map (fun ie => elemColumn (pairsOf fromxys) ie.2)

/-- `square_matrix[i][j] = Σ eval[:,i]·eval[:,j]` (lines 206-210). -/
def gram (cols : List (List RT3)) : List (List RT3) :=
  cols.map (fun ci => cols.map (fun cj => dotV ci cj))

/-- first row index `≥ k` whose entry in column `k` is (value) nonzero. -/
def findPivotRow (rows : List (List RT3)) (k : Nat) : Option Nat :=
  ((List.range rows.length).drop k).find? (fun i => !(RT3.isZeroR (getE rows i k)))

/-- swap rows `i` and `j`. -/
def swapRows {α : Type} (i j : Nat) (rows : List (List α)) : List (List α) :=
  rows.mapIdx (fun r row =>
    if r = i then rows.getD j [] else if r = j then rows.getD i [] else row)

/-- Gauss-Jordan elimination steps on the augmented matrix. -/
def elimLoop : Nat → Nat → List (List RT3) → Option (List (List RT3))
  | 0, _, rows => some rows
  | steps + 1, k, rows =>
    match findPivotRow rows k with
    | none => none
    | some i =>
      let rows1 := swapRows k i rows
      let pivot := getE rows1 k k
      let prow := (rows1.getD k []).map (fun v => RT3.normR (RT3.div v pivot))
      let rows2 := rows1.mapIdx (fun r row =>
        if r = k then prow
        else List.zipWith
          (fun x p => RT3.normR (RT3.sub x (RT3.mul (getE rows1 r k) p))) row prow)
      elimLoop steps (k + 1) rows2

/-- `numpy.linalg.inv`: the exact inverse, or `none` (`LinAlgError`) on
a singular matrix. -/
def invMat (a : List (List RT3)) : Option (List (List RT3)) :=
  let nn := a.length
  let aug := a.mapIdx (fun i row =>
    row ++ (List.range nn).map (fun j => if i = j then (1 : RT3) else 0))
  (elimLoop nn 0 aug).map (fun rows => rows.map (fun row => row.drop nn))

/-- matrix × vector. -/
def matVec (m : List (List RT3)) (v : List RT3) : List RT3 :=
  m.map (fun row => dotV row v)

/-- `numpy.max(numpy.absolute(l))`; numpy raises on an empty reduction. -/
def pyMaxAbs (l : List RT3) : Except PyErr RT3 :=
  match l.map RT3.absv with
  | [] => .error .valueError
  | h :: t => .ok (t.foldl RT3.maxv h)

/-- `numpy.average(numpy.absolute(l))`; the empty case (never reached
from a nonempty fit) is modelled as an error. -/
def pyAvgAbs (l : List RT3) : Except PyErr RT3 :=
  if l.length = 0 then .error .valueError
  else .ok (RT3.normR (RT3.div
    ((l.map RT3.absv).foldl (fun acc v => RT3.normR (RT3.add acc v)) 0)
    (RT3.ofNatR l.length)))

/-- `(r1, c1)` and `(r2, c2)` are numpy-broadcast compatible. -/
def broadcastable (r1 c1 r2 c2 : Nat) : Bool :=
  (r1 == r2 || r1 == 1 || r2 == 1) && (c1 == c2 || c1 == 1 || c2 == 1)

/-- `RichCompareBool` on two distinct ndarray objects: `x == y` is an
elementwise comparison array; `bool()` of it raises `ValueError` unless
it has at most one element; on incompatible shapes `__eq__` returns
`NotImplemented` and the fallback identity test yields `False`. -/
def arrayEqBool (x y : Grid) : Except PyErr Bool :=
  if grows x = grows y ∧ gcols x = gcols y then
    if grows x * gcols x ≤ 1 then
      .ok (RT3.isZeroR (RT3.sub (getE x 0 0) (getE y 0 0)))
    else .error .valueError
  else if broadcastable (grows x) (gcols x) (grows y) (gcols y) then
    .error .valueError
  else .ok false

/-- tuple equality: compare components left to right, stopping at the
first inequality; errors propagate. -/
def tupleEqBool (a b : Grid × Grid) : Except PyErr Bool :=
  match arrayEqBool a.1 b.1 with
  | .error e => .error e
  | .ok false => .ok false
  | .ok true => arrayEqBool a.2 b.2

/-- `list.remove(value)`: scan from the head; an element equal to (or
identical to, compared by allocation id) the value is removed;
comparison errors propagate; a completed scan raises `ValueError`. -/
def pyRemove (l : List (Nat × (Grid × Grid))) (tid : Nat) (tval : Grid × Grid) :
    Except PyErr (List (Nat × (Grid × Grid))) :=
  match l with
  | [] => .error .valueError
  | (i, e) :: rest =>
    if i = tid then .ok rest
    else match tupleEqBool e tval with
      | .error err => .error err
      | .ok true => .ok rest
      | .ok false => (pyRemove rest tid tval).map ((i, e) :: ·)

/-- lines 222-226: `for a in newbasiselements: try:
basiselements.remove(a) except ValueError: pass`. -/
def removeAll (basis newElems : List (Nat × (Grid × Grid))) :
    List (Nat × (Grid × Grid)) :=
  newElems.foldl (fun bs ie =>
    match pyRemove bs ie.1 ie.2 with
    | .error _ => bs
    | .ok bs2 => bs2) basis

/-- the loop state of `computetransform`: `weights`, `err`, `avgerr`
start unassigned (`None`); basis elements carry allocation ids for the
identity shortcut of `list.remove`. -/
structure FitState where
  degree : Int
  nextId : Nat
  basis : List (Nat × (Grid × Grid))
  weights : Option (List RT3)
  err : Option RT3
  avgerr : Option RT3
  deriving Repr, DecidableEq

/-- the state on entry to the loop (lines 188-194). -/
def initFitState : FitState :=
  { degree := 0, nextId := 0, basis := [], weights := none, err := none,
    avgerr := none }

/-- the basis list after `basiselements.extend(newbasiselements)`. -/
def extendedBasis (s : FitState) (nb : List (Grid × Grid)) :
    List (Nat × (Grid × Grid)) :=
  s.basis ++ nb.mapIdx (fun k e => (s.nextId + k, e))

/-- one iteration of the `while` body (lines 196-230). -/
def computestep (fromxys toxys : List RT3) (s : FitState) :
    Except PyErr FitState :=
  match extendbasis (s.degree + 1) with
  | .error e => .error e
  | .ok none => .error .typeError
  | .ok (some nb) =>
    match invMat (gram (designCols fromxys (extendedBasis s nb))) with
    | none =>
      .ok { degree := s.degree + 1, nextId := s.nextId + nb.length,
            basis := extendedBasis s nb, weights := s.weights, err := s.err,
            avgerr := s.avgerr }
    | some inv =>
      let cols := designCols fromxys (extendedBasis s nb)
      let errxys := List.zipWith RT3.sub toxys fromxys
      let newweights := matVec inv (cols.map (fun cj => dotV cj errxys))
      let fitted := (List.range fromxys.length).map (fun k =>
        dotV (cols.map (fun ci => ci.getD k 0)) newweights)
      let resid := List.zipWith RT3.sub
        (List.zipWith RT3.add fromxys fitted) toxys
      match pyMaxAbs resid, pyAvgAbs resid with
      | .error e, _ => .error e
      | _, .error e => .error e
      | .ok newerr, .ok newavgerr =>
        match s.avgerr with
        | some avg =>
          if RT3.blt avg newavgerr then
            .ok { degree := s.degree + 1, nextId := s.nextId + nb.length,
                  basis := removeAll (extendedBasis s nb)
                    (nb.mapIdx (fun k e => (s.nextId + k, e))),
                  weights := s.weights, err := some (RT3.neg 1),
                  avgerr := some (RT3.neg 1) }
          else
            .ok { degree := s.degree + 1, nextId := s.nextId + nb.length,
                  basis := extendedBasis s nb, weights := some newweights,
                  err := some newerr, avgerr := some newavgerr }
        | none =>
          .ok { degree := s.degree + 1, nextId := s.nextId + nb.length,
                basis := extendedBasis s nb, weights := some newweights,
                err := some newerr, avgerr := some newavgerr }

/-- `while err is None or err > maxerr`. -/
def loopCond (maxerr : RT3) (s : FitState) : Bool :=
  s.err.isNone || RT3.blt maxerr (s.err.getD 0)

/-- the `while` loop on explicit fuel; `none` means the iteration bound
was hit (the source loop has no bound of its own). -/
def computeRun (fromxys toxys : List RT3) (maxerr : RT3) :
    Nat → FitState → Option (Except PyErr FitState)
  | 0, _ => none
  | fuel + 1, s =>
    if loopCond maxerr s then
      match computestep fromxys toxys s with
      | .error e => some (.error e)
      | .ok s2 => computeRun fromxys toxys maxerr fuel s2
    else some (.ok s)

/-- the coefficient fold after the loop (lines 231-236): `weights[i]`
raises `IndexError` as soon as `i` reaches the length of the weights
vector. -/
def foldCoefs (w : List RT3) (avg : RT3) :
    Nat → Grid → Grid → List (Grid × Grid) → Except PyErr (Grid × Grid × RT3)
  | _, tx, ty, [] => .ok (tx, ty, avg)
  | i, tx, ty, e :: rest =>
    if i < w.length then
      foldCoefs w avg (i + 1)
        (addRegion tx 0 0 (scaleR (w.getD i 0) e.1))
        (addRegion ty 0 0 (scaleR (w.getD i 0) e.2)) rest
    else .error .indexError

/-- lines 231-237: allocate `tx`/`ty` at the maximal element shapes,
fold in the weighted elements, return the average error.  `max()` of an
empty sequence or an unassigned `weights` cannot arise from a run that
left the loop normally with at least one iteration. -/
def finishFold (s : FitState) : Except PyErr (Grid × Grid × RT3) :=
  match s.weights, s.avgerr with
  | some w, some avg =>
    if s.basis.length = 0 then .error .valueError
    else
      foldCoefs w avg 0
        (zerosR ((s.basis.map (fun be => grows be.2.1)).foldl Nat.max 0)
          ((s.basis.map (fun be => gcols be.2.1)).foldl Nat.max 0))
        (zerosR ((s.basis.map (fun be => grows be.2.2)).foldl Nat.max 0)
          ((s.basis.map (fun be => gcols be.2.2)).foldl Nat.max 0))
        (s.basis.map (fun be => be.2))
  | _, _ => .error .nameError

/-- `computetransform(fromxys, toxys, maxerr)` on explicit loop fuel:
`none` when the fuel bound is hit, otherwise the raised exception or
the returned average error.  Interleaved lists of different lengths
fail in `toxys - fromxys` (line 191). -/
def computetransform (fuel : Nat) (fromxys toxys : List RT3) (maxerr : RT3) :
    Option (Except PyErr RT3) :=
  if fromxys.length ≠ toxys.length then some (.error .valueError)
  else
    match computeRun fromxys toxys maxerr fuel initFitState with
    | none => none
    | some (.error e) => some (.error e)
    | some (.ok s) => some ((finishFold s).map (fun r => r.2.2))

/-- the observed interleaved points of the instability run: four points
(1/2, 1/4), (0, -1/2), (1/2, 0), (1/4, 0). -/
def c1_fromxys : List RT3 :=
  [RT3.ofFrac ⟨1, 2⟩, RT3.ofFrac ⟨1, 4⟩, 0, RT3.ofFrac ⟨-1, 2⟩,
   RT3.ofFrac ⟨1, 2⟩, 0, RT3.ofFrac ⟨1, 4⟩, 0]

/-- the target interleaved points: only the first point moves to
(3/4, 1/4) and the last to (0, 0). -/
def c1_toxys : List RT3 :=
  [RT3.ofFrac ⟨3, 4⟩, RT3.ofFrac ⟨1, 4⟩, 0, RT3.ofFrac ⟨-1, 2⟩,
   RT3.ofFrac ⟨1, 2⟩, 0, 0, 0]

/-- the requested accuracy 1/100. -/
def c1_maxerr : RT3 := RT3.ofFrac ⟨1, 100⟩

set_option maxRecDepth 40000 in
/-- C1: the claim says that on a well-formed input whose next degree
step increases the average error, `computetransform` discards the new
basis elements, keeps the last good weights, and returns `-1` without
raising.  On the concrete well-formed unit-disk input above the
degree-2 refit raises the average error from 1/16 to 3/40, the
instability branch runs, but `basiselements.remove` fails on one of the
four new elements (the elementwise numpy comparison of its
shape-(1,2) grid with a shape-(3,2) grid broadcasts and its truth
value raises a `ValueError`, which line 226 swallows), so three basis
elements remain against two retained weights and the closing fold
raises `IndexError` at `weights[2]` (line 235) instead of returning
`-1`. -/
theorem c1_instability_raises_indexerror :
    computetransform 5 c1_fromxys c1_toxys c1_maxerr =
      some (.error .indexError) := by
  rfl

/-- the basis elements produced by `extendbasis 1`. -/
def nbW : List (Grid × Grid) :=
  match extendbasis 1 with
  | .ok (some l) => l
  | _ => []

/-- C7: when the Gram matrix of the extended basis is singular (the
inversion raises `LinAlgError`, caught at line 214), the iteration
skips the solve: the degree still advances, the new basis elements
stay, and the weights, maximal error and average error are exactly
those of the previous accepted step, with no exception. -/
theorem c7_singular_gram_skips_step (fromxys toxys : List RT3)
    (s : FitState) (nb : List (Grid × Grid))
    (hext : extendbasis (s.degree + 1) = .ok (some nb))
    (hsing : invMat (gram (designCols fromxys (extendedBasis s nb))) = none) :
    computestep fromxys toxys s =
      .ok { degree := s.degree + 1, nextId := s.nextId + nb.length,
            basis := extendedBasis s nb, weights := s.weights,
            err := s.err, avgerr := s.avgerr } := by
  simp only [computestep, hext, hsing]

/-- the skip theorem at a concrete state: with no data points every
design column is empty, the degree-1 Gram matrix is the zero matrix,
and the first iteration keeps the unassigned weights and errors while
the degree advances to 1. -/
theorem c7_singular_gram_skips_step_witness :
    computestep [] [] initFitState =
      .ok { degree := 1, nextId := nbW.length,
            basis := extendedBasis initFitState nbW, weights := none,
            err := none, avgerr := none } :=
  c7_singular_gram_skips_step [] [] initFitState nbW (by rfl) (by rfl)
